import Mathlib

/-!
Verification of the `camas` Redis-client codec: the `ProtocolDataType`
value model, its serializer and nom-based parser
(`src/protocol/mod.rs`, `src/protocol/parser.rs`), and the SET command
argument builder and response shaping (`src/commands/set.rs`,
`src/data_type.rs`).

Strings are modelled as `List Char` (Rust `&str` is a sequence of
`char`s; nom's combinators on `&str` operate on chars, while
`String::len` counts UTF-8 bytes — both views are kept).  Rust panics
(`unwrap`, `unreachable!`) are modelled as an explicit `panic` outcome.
-/

/-- Convert a string literal to the `List Char` representation used
throughout. -/
def str (s : String) : List Char := s.toList

/-- ASCII decimal digit test (`c.is_ascii_digit()` on a `char`). -/
def isDig (c : Char) : Bool := '0' ≤ c && c ≤ '9'

/-- Model of `nom::character::is_digit(a as u8)` applied to a `char`:
the char's code point is truncated to 8 bits before the `0x30..=0x39`
test, exactly as `a as u8` does in Rust. -/
def isDigitByte (a : Char) : Bool :=
  let b := a.toNat % 256
  decide (48 ≤ b) && decide (b ≤ 57)

/-- Whether the two-char sequence CR LF occurs inside a char list. -/
def containsCRLF : List Char → Bool
  | [] => false
  | c :: rest => (c == '\r' && rest.head? == some '\n') || containsCRLF rest

/-- `a.startsWith b` on char lists (used to model `nom::bytes::complete::tag`). -/
def startsWith : List Char → List Char → Bool
  | _, [] => true
  | [], _ :: _ => false
  | x :: xs, y :: ys => x == y && startsWith xs ys

/-- UTF-8 byte length of a char list: models Rust `String::len`. -/
def utf8Len (s : List Char) : Nat := (s.map Char.utf8Size).sum

/-- Decimal digit char for `d < 10`. -/
def digitChar (d : Nat) : Char := Char.ofNat (48 + d)

/-- Value of a list of ASCII decimal digit chars, most significant first. -/
def digitsToNat (s : List Char) : Nat :=
  s.foldl (fun acc c => acc * 10 + (c.toNat - 48)) 0

/-- Decimal digits of `n`, most significant first, computed with fuel so
that the definition is structurally recursive (kernel-reducible). -/
def natDigitsAux : Nat → Nat → List Char
  | 0, _ => []
  | fuel + 1, n =>
    if n < 10 then [digitChar n]
    else natDigitsAux fuel (n / 10) ++ [digitChar (n % 10)]

/-- Decimal representation of a natural number (`u64::to_string`,
`usize::to_string`, `Vec::len` formatting, ...). -/
def natDigits (n : Nat) : List Char := natDigitsAux (n + 1) n

/-- Decimal representation of an integer with leading `-` for negatives:
models `i64`/`BigInt` `Display`. -/
def intRepr (i : Int) : List Char :=
  if i < 0 then '-' :: natDigits i.natAbs else natDigits i.natAbs

/-- Nonempty all-digit char list. -/
def isAsciiDigits (s : List Char) : Bool := !s.isEmpty && s.all isDig

/-- Rust unsigned `from_str` without the width check: optional leading
`+`, then one or more decimal digits. -/
def parseUnsigned (s : List Char) : Option Nat :=
  let body := if s.head? == some '+' then s.tail else s
  if isAsciiDigits body then some (digitsToNat body) else none

/-- Model of `u32::from_str`. -/
def u32_from_str (s : List Char) : Option Nat :=
  match parseUnsigned s with
  | some n => if n < 4294967296 then some n else none
  | none => none

/-- Model of `usize::from_str` on a 64-bit target. -/
def usize_from_str (s : List Char) : Option Nat :=
  match parseUnsigned s with
  | some n => if n < 18446744073709551616 then some n else none
  | none => none

/-- Sign-split helper shared by the signed numeric parsers: strips one
leading `+` or `-`. -/
def signSplit (s : List Char) : Bool × List Char :=
  if s.head? == some '+' then (false, s.tail)
  else if s.head? == some '-' then (true, s.tail)
  else (false, s)

/-- Model of `i64::from_str`: optional sign, digits, 64-bit signed range. -/
def i64_from_str (s : List Char) : Option Int :=
  let (neg, body) := signSplit s
  if isAsciiDigits body then
    let v : Int := if neg then -(digitsToNat body : Int) else (digitsToNat body : Int)
    if -9223372036854775808 ≤ v ∧ v < 9223372036854775808 then some v else none
  else none

/-- Model of `num_bigint::BigInt::from_str`: optional sign, digits, no
range limit. -/
def bigint_from_str (s : List Char) : Option Int :=
  let (neg, body) := signSplit s
  if isAsciiDigits body then
    some (if neg then -(digitsToNat body : Int) else (digitsToNat body : Int))
  else none

/-!  ## The `f64` model

Finite doubles are represented by their shortest-round-trip decimal
`Display` text (Rust guarantees `Display` output parses back to the same
value); the three special values are explicit constructors.  This is the
granularity at which the codec observes doubles: the serializer emits
the `Display` text, the parser recognises the literal tokens and
otherwise defers to `f64::from_str`, and the model's `PartialEq` only
inspects NaN-ness and `partial_cmp`. -/

inductive F64 where
  | nan
  | inf
  | neginf
  | finite (repr : List Char)
deriving DecidableEq, Repr

/-- `f64::is_nan`. -/
def F64.isNaN : F64 → Bool
  | .nan => true
  | _ => false

/-- `Display` for `f64`: `NaN`, `inf`, `-inf`, or the finite decimal text. -/
def F64.display : F64 → List Char
  | .nan => str "NaN"
  | .inf => str "inf"
  | .neginf => str "-inf"
  | .finite r => r

/-- Mantissa part of Rust's float grammar: `Digit+ ('.' Digit*)? | '.' Digit+`. -/
def mantOk (s : List Char) : Bool :=
  let ip := s.takeWhile isDig
  match s.dropWhile isDig with
  | [] => !ip.isEmpty
  | '.' :: frac => frac.all isDig && (!ip.isEmpty || !frac.isEmpty)
  | _ => false

/-- Exponent part of Rust's float grammar: empty, or `e`/`E`, optional
sign, digits. -/
def expOk : List Char → Bool
  | [] => true
  | c :: rest =>
    if c == 'e' || c == 'E' then
      let body := match rest with
        | '+' :: r => r
        | '-' :: r => r
        | r => r
      isAsciiDigits body
    else false

/-- Finite-number body of Rust's `f64::from_str` grammar (after the sign). -/
def isNumberBody (s : List Char) : Bool :=
  let mant := s.takeWhile (fun c => isDig c || c == '.')
  let rest := s.dropWhile (fun c => isDig c || c == '.')
  mantOk mant && expOk rest

/-- Model of `f64::from_str`: optional sign; `inf`/`infinity`/`nan`
case-insensitively; otherwise the decimal/scientific grammar.  A finite
result keeps the full source text as its representative. -/
def f64_from_str (s : List Char) : Option F64 :=
  let (neg, body) := signSplit s
  let lowered := body.map Char.toLower
  if lowered == str "inf" || lowered == str "infinity" then
    some (if neg then F64.neginf else F64.inf)
  else if lowered == str "nan" then some F64.nan
  else if isNumberBody body then some (F64.finite s) else none

/-- Decompose a finite decimal text into sign, mantissa digits value and
a power-of-ten exponent, for numeric comparison of representatives. -/
def decimalParts (s : List Char) : Option (Int × Int) :=
  let (neg, body) := signSplit s
  let mant := body.takeWhile (fun c => isDig c || c == '.')
  let rest := body.dropWhile (fun c => isDig c || c == '.')
  if mantOk mant && expOk rest then
    let ip := mant.takeWhile isDig
    let frac := (mant.dropWhile isDig).drop 1
    let m : Nat := digitsToNat (ip ++ frac)
    let e10 : Int :=
      match rest with
      | [] => 0
      | _ :: r =>
        let (eneg, ebody) := signSplit r
        if eneg then -(digitsToNat ebody : Int) else (digitsToNat ebody : Int)
    some ((if neg then -(m : Int) else (m : Int)), e10 - frac.length)
  else none

/-- Numeric comparison of two finite decimal representatives
(`a * 10^ea` versus `b * 10^eb` over the integers). -/
def decimalCmp (x y : List Char) : Ordering :=
  match decimalParts x, decimalParts y with
  | some (a, ea), some (b, eb) =>
    let l : Int := a * (10 : Int) ^ (ea - min ea eb).toNat
    let r : Int := b * (10 : Int) ^ (eb - min ea eb).toNat
    compare l r
  | _, _ => Ordering.eq

/-- `f64::partial_cmp`: `None` whenever a NaN is involved, otherwise the
numeric order. -/
def F64.partialCmp : F64 → F64 → Option Ordering
  | .nan, _ => none
  | _, .nan => none
  | .inf, .inf => some .eq
  | .inf, _ => some .gt
  | _, .inf => some .lt
  | .neginf, .neginf => some .eq
  | .neginf, _ => some .lt
  | _, .neginf => some .gt
  | .finite a, .finite b => some (decimalCmp a b)

/-- Shape of `Display` output for finite doubles: optional `-`, digits,
optional `.` followed by digits.  Every finite `f64` prints in this
shape; it is the well-formedness assumed of `F64.finite`
representatives. -/
def validFiniteRepr (s : List Char) : Bool :=
  let body := if s.head? == some '-' then s.tail else s
  let ip := body.takeWhile isDig
  let rest := body.dropWhile isDig
  !ip.isEmpty &&
    (rest.isEmpty ||
      (rest.head? == some '.' && !rest.tail.isEmpty && rest.tail.all isDig))

/-- Well-formed `F64` values: the specials, or a finite value whose
representative has `Display` shape. -/
def goodF64 : F64 → Bool
  | .finite r => validFiniteRepr r
  | _ => true

/-!  ## The value model (`ProtocolDataType`, `src/protocol/mod.rs`)

`Vec<ProtocolDataType>` is rendered as the mutually inductive
`ValueList` so that every function below is plain structural recursion
(kernel-reducible). -/

mutual

inductive ProtocolDataType where
  | Null
  | Double (d : F64)
  | Boolean (b : Bool)
  | Integer (i : Int)
  | BigNumber (n : Int)
  | BulkError (s : List Char)
  | BulkString (s : List Char)
  | SimpleError (s : List Char)
  | SimpleString (s : List Char)
  | Array (items : ValueList)

inductive ValueList where
  | nil
  | cons (head : ProtocolDataType) (tail : ValueList)

end

/-- `Vec::len` of the array payload. -/
def ValueList.length : ValueList → Nat
  | .nil => 0
  | .cons _ tl => tl.length + 1

mutual

/-- `impl PartialEq for ProtocolDataType` — including the
`lhs.is_nan() == rhs.is_nan()` early `return true` on the `Double` arm,
exactly as written in the source. -/
def protoEq : ProtocolDataType → ProtocolDataType → Bool
  | .Null, .Null => true
  | .Double lhs, .Double rhs =>
    if lhs.isNaN == rhs.isNaN then true
    else match F64.partialCmp lhs rhs with
      | some ord => ord == Ordering.eq
      | none => false
  | .Boolean lhs, .Boolean rhs => lhs == rhs
  | .Integer lhs, .Integer rhs => lhs == rhs
  | .BigNumber lhs, .BigNumber rhs => lhs == rhs
  | .BulkError lhs, .BulkError rhs => lhs == rhs
  | .BulkString lhs, .BulkString rhs => lhs == rhs
  | .SimpleError lhs, .SimpleError rhs => lhs == rhs
  | .SimpleString lhs, .SimpleString rhs => lhs == rhs
  | .Array lhs, .Array rhs => protoEqList lhs rhs
  | _, _ => false

/-- Element-wise `Vec` equality used by the `Array` arm. -/
def protoEqList : ValueList → ValueList → Bool
  | .nil, .nil => true
  | .cons x xs, .cons y ys => protoEq x y && protoEqList xs ys
  | _, _ => false

end

mutual

/-- `ProtocolDataType::serialize` (`src/protocol/mod.rs`), char for char:
empty array and empty bulk string get their short forms; bulk lengths
are the UTF-8 **byte** lengths (`String::len`); a NaN double serializes
as the literal `nan`. -/
def serialize : ProtocolDataType → List Char
  | .Array array =>
    if array.length == 0 then str "*0\r\n"
    else '*' :: natDigits array.length ++ str "\r\n" ++ serializeItems array
  | .BulkString s =>
    if s.isEmpty then str "$0\r\n"
    else '$' :: natDigits (utf8Len s) ++ str "\r\n" ++ s ++ str "\r\n"
  | .Integer i => ':' :: intRepr i ++ str "\r\n"
  | .SimpleString s => '+' :: s ++ str "\r\n"
  | .SimpleError e => '-' :: e ++ str "\r\n"
  | .Null => str "_\r\n"
  | .Boolean b => '#' :: (if b then 't' else 'f') :: str "\r\n"
  | .Double d =>
    if d.isNaN then str ",nan\r\n"
    else ',' :: d.display ++ str "\r\n"
  | .BigNumber n => '(' :: intRepr n ++ str "\r\n"
  | .BulkError e => '!' :: natDigits (utf8Len e) ++ str "\r\n" ++ e ++ str "\r\n"

/-- The concatenated serializations of an array's elements. -/
def serializeItems : ValueList → List Char
  | .nil => []
  | .cons v vs => serialize v ++ serializeItems vs

end

/-!  ## The parser (`src/protocol/parser.rs`)

nom combinators over `&str` are modelled over `List Char`; the `Item`
of `&str` is `char`, so `take(count)` counts chars.  `PResult.panic`
records a Rust panic (every `unwrap` inside a `map` closure). -/

inductive PResult (α : Type) where
  | ok (rest : List Char) (val : α)
  | err
  | panic
deriving Repr

/-- Sequencing: propagate `err`/`panic`, continue on `ok`. -/
def pbind {α β : Type} (r : PResult α) (f : List Char → α → PResult β) : PResult β :=
  match r with
  | .ok rest v => f rest v
  | .err => .err
  | .panic => .panic

/-- A nom `map` whose closure may `unwrap`: `none` from the closure is a
panic, not a parse error. -/
def mapUnwrap {α β : Type} (r : PResult α) (f : α → Option β) : PResult β :=
  match r with
  | .ok rest v =>
    match f v with
    | some b => .ok rest b
    | none => .panic
  | .err => .err
  | .panic => .panic

/-- `nom::branch::alt` on two parsers: try the second only on a
recoverable error (a panic aborts everything). -/
def altP {α : Type} (p q : List Char → PResult α) (input : List Char) : PResult α :=
  match p input with
  | .err => q input
  | r => r

/-- `nom::character::complete::char`. -/
def pchar (c : Char) (input : List Char) : PResult Char :=
  match input with
  | x :: rest => if x == c then .ok rest x else .err
  | [] => .err

/-- `nom::bytes::complete::tag`. -/
def ptag (t : List Char) (input : List Char) : PResult (List Char) :=
  if startsWith input t then .ok (input.drop t.length) t else .err

/-- `nom::character::complete::crlf`. -/
def pcrlf (input : List Char) : PResult (List Char) := ptag (str "\r\n") input

/-- `nom::bytes::complete::take_while`: never fails. -/
def ptakeWhile (p : Char → Bool) (input : List Char) : PResult (List Char) :=
  .ok (input.dropWhile p) (input.takeWhile p)

/-- `nom::bytes::complete::take(n)` over `&str`: exactly `n` chars. -/
def ptake (n : Nat) (input : List Char) : PResult (List Char) :=
  if n ≤ input.length then .ok (input.drop n) (input.take n) else .err

/-- Split at the first CR LF: `some (before, from-CRLF-on)`. -/
def splitAtCRLF : List Char → Option (List Char × List Char)
  | [] => none
  | c :: rest =>
    if c == '\r' && rest.head? == some '\n' then some ([], c :: rest)
    else
      match splitAtCRLF rest with
      | some (pre, suf) => some (c :: pre, suf)
      | none => none

/-- `nom::bytes::complete::take_until("\r\n")`: everything before the
first CR LF, which stays unconsumed; errors when absent. -/
def takeUntilCRLF (input : List Char) : PResult (List Char) :=
  match splitAtCRLF input with
  | some (pre, suf) => .ok suf pre
  | none => .err

/-- `bulk_string_with_content`: `$`, digits, then the count is
`u32::from_str(..).unwrap()`-ed (a non-`u32` count panics), then
`delimited(crlf, take(count), crlf)`. -/
def bulk_string_with_content (input : List Char) : PResult ProtocolDataType :=
  pbind (pchar '$' input) fun r1 _ =>
  pbind (ptakeWhile isDigitByte r1) fun r2 digits =>
  match u32_from_str digits with
  | none => .panic
  | some count =>
    pbind (pcrlf r2) fun r3 _ =>
    pbind (ptake count r3) fun r4 content =>
    pbind (pcrlf r4) fun r5 _ => .ok r5 (ProtocolDataType.BulkString content)

/-- `bulk_string_nil`: the literal `$-1\r\n` is `Null`. -/
def bulk_string_nil (input : List Char) : PResult ProtocolDataType :=
  pbind (ptag (str "$-1") input) fun r1 _ =>
  pbind (pcrlf r1) fun r2 _ => .ok r2 ProtocolDataType.Null

/-- `bulk_string_empty`: the literal `$0\r\n` is the empty bulk string. -/
def bulk_string_empty (input : List Char) : PResult ProtocolDataType :=
  pbind (ptag (str "$0") input) fun r1 _ =>
  pbind (pcrlf r1) fun r2 _ => .ok r2 (ProtocolDataType.BulkString [])

/-- `bulk_string = alt((nil, empty, with_content))`. -/
def bulk_string : List Char → PResult ProtocolDataType :=
  altP bulk_string_nil (altP bulk_string_empty bulk_string_with_content)

/-- `simple_string`: `+`, anything up to CR LF, CR LF. -/
def simple_string (input : List Char) : PResult ProtocolDataType :=
  pbind (pchar '+' input) fun r1 _ =>
  pbind (takeUntilCRLF r1) fun r2 text =>
  pbind (pcrlf r2) fun r3 _ => .ok r3 (ProtocolDataType.SimpleString text)

/-- `simple_error`: `-`, anything up to CR LF, CR LF. -/
def simple_error (input : List Char) : PResult ProtocolDataType :=
  pbind (pchar '-' input) fun r1 _ =>
  pbind (takeUntilCRLF r1) fun r2 text =>
  pbind (pcrlf r2) fun r3 _ => .ok r3 (ProtocolDataType.SimpleError text)

/-- `integer`: `:`, body up to CR LF, then
`integer_str.parse::<i64>().unwrap()` — a body `i64::from_str` rejects
panics. -/
def integer (input : List Char) : PResult ProtocolDataType :=
  pbind (pchar ':' input) fun r1 _ =>
  pbind (takeUntilCRLF r1) fun r2 integer_str =>
  pbind (pcrlf r2) fun r3 _ =>
  match i64_from_str integer_str with
  | some i => .ok r3 (ProtocolDataType.Integer i)
  | none => .panic

/-- `array_empty`: the literal `*0\r\n`. -/
def array_empty (input : List Char) : PResult ProtocolDataType :=
  pbind (ptag (str "*0") input) fun r1 _ =>
  pbind (pcrlf r1) fun r2 _ => .ok r2 (ProtocolDataType.Array ValueList.nil)

/-- `many_m_n(count, count, data_type)`: exactly `count` repetitions of
the element parser, failing (or panicking) as soon as one repetition
does. -/
def many_exact (p : List Char → PResult ProtocolDataType) :
    Nat → List Char → PResult ValueList
  | 0, input => .ok input ValueList.nil
  | n + 1, input =>
    pbind (p input) fun rest v =>
    pbind (many_exact p n rest) fun rest2 vs => .ok rest2 (ValueList.cons v vs)

/-- `array_with_elements`, parametrised by the element parser:
`delimited('*', take_while(digit), crlf)`, the count
`usize::from_str(..).unwrap()`-ed, then `many_m_n(count, count, ...)`. -/
def array_with_elements (dt : List Char → PResult ProtocolDataType)
    (input : List Char) : PResult ProtocolDataType :=
  pbind (pchar '*' input) fun r1 _ =>
  pbind (ptakeWhile isDigitByte r1) fun r2 digits =>
  pbind (pcrlf r2) fun r3 _ =>
  match usize_from_str digits with
  | none => .panic
  | some count =>
    pbind (many_exact dt count r3) fun r4 elements =>
      .ok r4 (ProtocolDataType.Array elements)

/-- `array = alt((array_empty, array_with_elements))`. -/
def array (dt : List Char → PResult ProtocolDataType) :
    List Char → PResult ProtocolDataType :=
  altP array_empty (array_with_elements dt)

/-- `boolean_true`: `#t\r\n`. -/
def boolean_true (input : List Char) : PResult ProtocolDataType :=
  pbind (ptag (str "#t") input) fun r1 _ =>
  pbind (pcrlf r1) fun r2 _ => .ok r2 (ProtocolDataType.Boolean true)

/-- `boolean_false`: `#f\r\n`. -/
def boolean_false (input : List Char) : PResult ProtocolDataType :=
  pbind (ptag (str "#f") input) fun r1 _ =>
  pbind (pcrlf r1) fun r2 _ => .ok r2 (ProtocolDataType.Boolean false)

/-- `boolean = alt((boolean_true, boolean_false))`. -/
def boolean : List Char → PResult ProtocolDataType :=
  altP boolean_true boolean_false

/-- `double_infinity`: the literal `,inf\r\n`. -/
def double_infinity (input : List Char) : PResult ProtocolDataType :=
  pbind (ptag (str ",inf") input) fun r1 _ =>
  pbind (pcrlf r1) fun r2 _ => .ok r2 (ProtocolDataType.Double F64.inf)

/-- `double_negative_infinity`: the literal `,-inf\r\n`. -/
def double_negative_infinity (input : List Char) : PResult ProtocolDataType :=
  pbind (ptag (str ",-inf") input) fun r1 _ =>
  pbind (pcrlf r1) fun r2 _ => .ok r2 (ProtocolDataType.Double F64.neginf)

/-- `double_not_a_number`: the literal `,nan\r\n`. -/
def double_not_a_number (input : List Char) : PResult ProtocolDataType :=
  pbind (ptag (str ",nan") input) fun r1 _ =>
  pbind (pcrlf r1) fun r2 _ => .ok r2 (ProtocolDataType.Double F64.nan)

/-- `double_number`: `,`, body up to CR LF, then
`double_str.parse::<f64>().unwrap()` — a body `f64::from_str` rejects
panics. -/
def double_number (input : List Char) : PResult ProtocolDataType :=
  pbind (pchar ',' input) fun r1 _ =>
  pbind (takeUntilCRLF r1) fun r2 double_str =>
  pbind (pcrlf r2) fun r3 _ =>
  match f64_from_str double_str with
  | some d => .ok r3 (ProtocolDataType.Double d)
  | none => .panic

/-- `double = alt((infinity, negative_infinity, not_a_number, number))`. -/
def double : List Char → PResult ProtocolDataType :=
  altP double_infinity
    (altP double_negative_infinity (altP double_not_a_number double_number))

/-- `null`: `_\r\n`. -/
def null (input : List Char) : PResult ProtocolDataType :=
  pbind (pchar '_' input) fun r1 _ =>
  pbind (pcrlf r1) fun r2 _ => .ok r2 ProtocolDataType.Null

/-- `big_number`: `(`, body up to CR LF, then
`number_str.parse::<BigInt>().unwrap()` — a body `BigInt::from_str`
rejects panics. -/
def big_number (input : List Char) : PResult ProtocolDataType :=
  pbind (pchar '(' input) fun r1 _ =>
  pbind (takeUntilCRLF r1) fun r2 number_str =>
  pbind (pcrlf r2) fun r3 _ =>
  match bigint_from_str number_str with
  | some n => .ok r3 (ProtocolDataType.BigNumber n)
  | none => .panic

/-- `bulk_error_empty`: the literal `!0\r\n`. -/
def bulk_error_empty (input : List Char) : PResult ProtocolDataType :=
  pbind (ptag (str "!0") input) fun r1 _ =>
  pbind (pcrlf r1) fun r2 _ => .ok r2 (ProtocolDataType.BulkError [])

/-- `bulk_error_with_content`: like `bulk_string_with_content` with `!`. -/
def bulk_error_with_content (input : List Char) : PResult ProtocolDataType :=
  pbind (pchar '!' input) fun r1 _ =>
  pbind (ptakeWhile isDigitByte r1) fun r2 digits =>
  match u32_from_str digits with
  | none => .panic
  | some count =>
    pbind (pcrlf r2) fun r3 _ =>
    pbind (ptake count r3) fun r4 content =>
    pbind (pcrlf r4) fun r5 _ => .ok r5 (ProtocolDataType.BulkError content)

/-- `bulk_error = alt((bulk_error_empty, bulk_error_with_content))`. -/
def bulk_error : List Char → PResult ProtocolDataType :=
  altP bulk_error_empty bulk_error_with_content

/-- `data_type`, the recursive entry: `alt` over the ten variant parsers
in source order.  The `fuel` argument only bounds the array-nesting
recursion depth (each nesting level consumes at least four chars, so
`input.length + 1` fuel is always enough at the top level). -/
def data_type : Nat → List Char → PResult ProtocolDataType
  | 0, _ => .err
  | fuel + 1, input =>
    altP simple_string
      (altP simple_error
        (altP bulk_string
          (altP bulk_error
            (altP big_number
              (altP integer
                (altP boolean
                  (altP double
                    (altP (array (data_type fuel)) null)))))))) input

/-- Outcome of `ProtocolDataType::from_str`: a parsed value, a parse
error, or a crash (a panic raised inside a nom closure). -/
inductive ParseOutcome where
  | value (v : ProtocolDataType)
  | error
  | crash

/-- `impl FromStr for ProtocolDataType`: run `parser::data_type`, keep
the value and discard any unconsumed rest on success, report an error
otherwise; a panic propagates. -/
def from_str (input : List Char) : ParseOutcome :=
  match data_type (input.length + 1) input with
  | .ok _ v => .value v
  | .err => .error
  | .panic => .crash

/-!  ## Client-facing conversion (`src/data_type.rs`) -/

/-- A list of char-list strings (the payload of `DataType::List`). -/
abbrev StrList := List (List Char)

/-- The user-facing `DataType`: strings and lists of strings. -/
inductive DataType where
  | String (s : List Char)
  | List (items : StrList)
deriving DecidableEq, Repr

/-- `Display` for `DataType`: the `String` arm prints its text in
quotes; the `List` arm comma-joins the stored item strings as they are
(`item.to_string()` on a Rust `String` is the identity) inside
brackets. -/
def dataTypeToText : DataType → List Char
  | .String s => '"' :: s ++ ['"']
  | .List items => '[' :: (items.intersperse [',']).flatten ++ [']']

/-- `bool::to_string`. -/
def boolText (b : Bool) : List Char := if b then str "true" else str "false"

/-- Outcome of `TryFrom<ProtocolDataType> for DataType`: `Ok`, `Err`, or
a panic (the `Array` arm `unwrap`s the conversion of every element). -/
inductive ConvResult where
  | ok (d : DataType)
  | err
  | panic
deriving Repr

mutual

/-- `DataType::try_from(ProtocolDataType)`: numeric and string variants
become their display text; arrays become lists of the elements'
converted display texts, with a panicking `unwrap` per element; `Null`,
`SimpleError` and `BulkError` are the catch-all `Err`. -/
def dataTypeTryFrom : ProtocolDataType → ConvResult
  | .Double d => .ok (.String d.display)
  | .Boolean b => .ok (.String (boolText b))
  | .Integer i => .ok (.String (intRepr i))
  | .BigNumber n => .ok (.String (intRepr n))
  | .BulkString s => .ok (.String s)
  | .SimpleString s => .ok (.String s)
  | .Array items =>
    match convertItems items with
    | some texts => .ok (.List texts)
    | none => .panic
  | _ => .err

/-- The `Array` arm's `items.map(|i| DataType::try_from(i).unwrap().to_string())`:
`none` marks the panic of the inner `unwrap`. -/
def convertItems : ValueList → Option (List (List Char))
  | .nil => some []
  | .cons v vs =>
    match dataTypeTryFrom v with
    | .ok d =>
      match convertItems vs with
      | some texts => some (dataTypeToText d :: texts)
      | none => none
    | _ => none

end

/-!  ## SET command (`src/commands/set.rs`) -/

/-- `ExpirationTime`: the five expiry options (`u64` payloads as `Nat`). -/
inductive ExpirationTime where
  | Seconds (seconds : Nat)
  | Milliseconds (milliseconds : Nat)
  | TimestampSeconds (seconds : Nat)
  | TimestampMilliseconds (milliseconds : Nat)
  | KeepTTL
deriving DecidableEq, Repr

/-- `SetMode`: the two conditional-write modes. -/
inductive SetMode where
  | SetIfExists
  | SetIfNotExists
deriving DecidableEq, Repr

/-- `SetOptions`. -/
structure SetOptions where
  expiration_time : Option ExpirationTime
  set_mode : Option SetMode
  get_previous_value : Bool
deriving DecidableEq, Repr

/-- `SetArguments`. -/
structure SetArguments where
  key : List Char
  value : List Char
  options : SetOptions

/-- `SetArguments::to_protocol_arguments`: key and value first, then the
option tokens pushed in source order — conditional mode, `GET`, expiry
flag with its numeric argument. -/
def SetArguments.to_protocol_arguments (a : SetArguments) : List ProtocolDataType :=
  let arguments := [ProtocolDataType.BulkString a.key, ProtocolDataType.BulkString a.value]
  let arguments := match a.options.set_mode with
    | some SetMode.SetIfExists => arguments ++ [ProtocolDataType.BulkString (str "XX")]
    | some SetMode.SetIfNotExists => arguments ++ [ProtocolDataType.BulkString (str "NX")]
    | none => arguments
  let arguments := if a.options.get_previous_value then
      arguments ++ [ProtocolDataType.BulkString (str "GET")]
    else arguments
  let arguments := match a.options.expiration_time with
    | some (ExpirationTime.Seconds seconds) =>
      arguments ++ [ProtocolDataType.BulkString (str "EX"),
        ProtocolDataType.BulkString (natDigits seconds)]
    | some (ExpirationTime.Milliseconds milliseconds) =>
      arguments ++ [ProtocolDataType.BulkString (str "PX"),
        ProtocolDataType.BulkString (natDigits milliseconds)]
    | some (ExpirationTime.TimestampSeconds seconds) =>
      arguments ++ [ProtocolDataType.BulkString (str "EXAT"),
        ProtocolDataType.BulkString (natDigits seconds)]
    | some (ExpirationTime.TimestampMilliseconds milliseconds) =>
      arguments ++ [ProtocolDataType.BulkString (str "PXAT"),
        ProtocolDataType.BulkString (natDigits milliseconds)]
    | some ExpirationTime.KeepTTL =>
      arguments ++ [ProtocolDataType.BulkString (str "KEEPTTL")]
    | none => arguments
  arguments

/-- `SetResponse`. -/
inductive SetResponse where
  | Ok
  | Aborted
  | PreviousValue (previous : Option DataType)
deriving DecidableEq, Repr

/-- Outcome of `SetResponse::parse`: a response, or a panic (from the
conversion `unwrap` or the final `unreachable!`). -/
inductive SetParseOutcome where
  | res (r : SetResponse)
  | crash
deriving DecidableEq, Repr

/-- `SetResponse::parse(arguments, response)`, including its panics: with
the previous-value flag, `Null` means no prior value and any other
response is converted with `try_into().unwrap()`; with a conditional
mode, `Null` means the write was aborted; a `SimpleString("OK")` means
done; everything else hits `unreachable!`. -/
def SetResponse.parse (arguments : SetArguments) (response : ProtocolDataType) :
    SetParseOutcome :=
  if arguments.options.get_previous_value then
    match response with
    | ProtocolDataType.Null => .res (SetResponse.PreviousValue none)
    | v =>
      match dataTypeTryFrom v with
      | .ok d => .res (SetResponse.PreviousValue (some d))
      | _ => .crash
  else if arguments.options.set_mode.isSome && response matches ProtocolDataType.Null then
    .res SetResponse.Aborted
  else
    match response with
    | ProtocolDataType.SimpleString s =>
      if s == str "OK" then .res SetResponse.Ok else .crash
    | _ => .crash

/-!  ## Well-formedness, depth, and statement-side helpers -/

/-- All chars are single-byte (ASCII): exactly when the payload's
`String::len` (bytes) agrees with its char count. -/
def allAscii (s : List Char) : Bool := s.all fun c => decide (c.toNat < 128)

mutual

/-- Constructible values on which the serializer output is well-formed
for the parser: simple payloads have no CR LF (the claim's own
restriction); integers are within `i64`; finite doubles carry `Display`
shaped text; bulk payloads are ASCII and below the `u32` length header
limit; bulk errors are nonempty (the empty bulk error's serialization
`!0\r\n\r\n` is misparsed by the short `!0` form inside arrays); arrays
are below the `usize` count header limit. -/
def goodValue : ProtocolDataType → Bool
  | .Null => true
  | .Boolean _ => true
  | .Integer i =>
    decide (-9223372036854775808 ≤ i) && decide (i < 9223372036854775808)
  | .BigNumber _ => true
  | .Double d => goodF64 d
  | .SimpleString s => !containsCRLF s
  | .SimpleError s => !containsCRLF s
  | .BulkString s => allAscii s && decide (s.length < 4294967296)
  | .BulkError s => !s.isEmpty && allAscii s && decide (s.length < 4294967296)
  | .Array items => decide (items.length < 18446744073709551616) && goodItems items

/-- `goodValue` on every element. -/
def goodItems : ValueList → Bool
  | .nil => true
  | .cons v vs => goodValue v && goodItems vs

end

mutual

/-- Array-nesting depth of a value (drives the parser's recursion). -/
def depthValue : ProtocolDataType → Nat
  | .Array items => depthItems items + 1
  | _ => 0

/-- Maximum nesting depth over a list of values. -/
def depthItems : ValueList → Nat
  | .nil => 0
  | .cons v vs => max (depthValue v) (depthItems vs)

end

/-- The round trip claim's conclusion: parsing the serialization
succeeds and the result is equal to the original under the model's own
`PartialEq`. -/
def roundtripOk (v : ProtocolDataType) : Bool :=
  match from_str (serialize v) with
  | .value w => protoEq w v
  | _ => false

/-- The ten dispatch marker chars of the wire format. -/
def markers : List Char := ['$', '+', '-', ':', '*', '#', ',', '_', '(', '!']

/-- Whether a command token is a `BulkString`. -/
def isBulkStringTok : ProtocolDataType → Bool
  | .BulkString _ => true
  | _ => false

/-- The conditional-mode flag tokens in the order the wire contract
fixes (statement-side rendering of the claim). -/
def conditionalTokens : Option SetMode → List ProtocolDataType
  | some SetMode.SetIfExists => [ProtocolDataType.BulkString (str "XX")]
  | some SetMode.SetIfNotExists => [ProtocolDataType.BulkString (str "NX")]
  | none => []

/-- The previous-value flag token (statement-side). -/
def previousValueTokens : Bool → List ProtocolDataType
  | true => [ProtocolDataType.BulkString (str "GET")]
  | false => []

/-- The expiry flag and its numeric argument (statement-side). -/
def expiryTokens : Option ExpirationTime → List ProtocolDataType
  | some (ExpirationTime.Seconds n) =>
    [ProtocolDataType.BulkString (str "EX"), ProtocolDataType.BulkString (natDigits n)]
  | some (ExpirationTime.Milliseconds n) =>
    [ProtocolDataType.BulkString (str "PX"), ProtocolDataType.BulkString (natDigits n)]
  | some (ExpirationTime.TimestampSeconds n) =>
    [ProtocolDataType.BulkString (str "EXAT"), ProtocolDataType.BulkString (natDigits n)]
  | some (ExpirationTime.TimestampMilliseconds n) =>
    [ProtocolDataType.BulkString (str "PXAT"), ProtocolDataType.BulkString (natDigits n)]
  | some ExpirationTime.KeepTTL => [ProtocolDataType.BulkString (str "KEEPTTL")]
  | none => []

/-!  ## Lemmas: decimal digit rendering -/

theorem str_crlf : str "\r\n" = ['\r', '\n'] := rfl

theorem toNat_digitChar {d : Nat} (h : d < 10) : (digitChar d).toNat = 48 + d := by
  interval_cases d <;> decide

theorem isDig_digitChar {d : Nat} (h : d < 10) : isDig (digitChar d) = true := by
  interval_cases d <;> decide

theorem digitChar_ne_zero {d : Nat} (h1 : 1 ≤ d) (h2 : d < 10) : digitChar d ≠ '0' := by
  interval_cases d <;> decide

theorem digitsToNat_append (a : List Char) (c : Char) :
    digitsToNat (a ++ [c]) = digitsToNat a * 10 + (c.toNat - 48) := by
  simp [digitsToNat, List.foldl_append]

theorem natDigitsAux_spec {fuel n : Nat} (h : n < fuel) :
    (∀ c ∈ natDigitsAux fuel n, isDig c = true) ∧
      digitsToNat (natDigitsAux fuel n) = n ∧
      (∃ c t, natDigitsAux fuel n = c :: t ∧ (1 ≤ n → c ≠ '0')) := by
  induction fuel generalizing n with
  | zero => omega
  | succ f ih =>
    by_cases h10 : n < 10
    · refine ⟨?_, ?_, digitChar n, [], ?_⟩
      · intro c hc
        simp [natDigitsAux, h10] at hc
        subst hc
        exact isDig_digitChar h10
      · simp [natDigitsAux, h10, digitsToNat, toNat_digitChar h10]
      · refine ⟨?_, fun h1 => digitChar_ne_zero h1 h10⟩
        simp [natDigitsAux, h10]
    · have hdiv : n / 10 < f := by
        have := Nat.div_lt_self (by omega : 0 < n) (by norm_num : 1 < 10)
        omega
      obtain ⟨hall, hval, c, t, heq, hnz⟩ := ih hdiv
      have hmod : n % 10 < 10 := Nat.mod_lt _ (by norm_num)
      refine ⟨?_, ?_, c, t ++ [digitChar (n % 10)], ?_⟩
      · intro x hx
        simp [natDigitsAux, h10] at hx
        rcases hx with hx | hx
        · exact hall x hx
        · subst hx
          exact isDig_digitChar hmod
      · simp only [natDigitsAux, if_neg h10]
        rw [digitsToNat_append, hval, toNat_digitChar hmod]
        omega
      · refine ⟨?_, fun _ => hnz ?_⟩
        · simp [natDigitsAux, h10, heq]
        · have := Nat.div_pos (by omega : 10 ≤ n) (by norm_num : 0 < 10)
          omega

theorem natDigits_all_dig (n : Nat) : ∀ c ∈ natDigits n, isDig c = true :=
  (natDigitsAux_spec (Nat.lt_succ_self n)).1

theorem digitsToNat_natDigits (n : Nat) : digitsToNat (natDigits n) = n :=
  (natDigitsAux_spec (Nat.lt_succ_self n)).2.1

theorem natDigits_cons (n : Nat) :
    ∃ c t, natDigits n = c :: t ∧ (1 ≤ n → c ≠ '0') :=
  (natDigitsAux_spec (Nat.lt_succ_self n)).2.2

theorem isDig_char_facts {c : Char} (h : isDig c = true) :
    c ≠ '\r' ∧ c ≠ '\n' ∧ c ≠ '+' ∧ c ≠ '-' ∧ c ≠ '.' ∧ isDigitByte c = true ∧
      c.toNat < 128 := by
  simp only [isDig, Bool.and_eq_true, decide_eq_true_eq] at h
  obtain ⟨h1, h2⟩ := h
  have hlo : 48 ≤ c.toNat := h1
  have hhi : c.toNat ≤ 57 := h2
  refine ⟨?_, ?_, ?_, ?_, ?_, ?_, by omega⟩
  · intro he; subst he; simp [Char.le_def] at hlo
  · intro he; subst he; simp [Char.le_def] at hlo
  · intro he; subst he; simp [Char.le_def] at hlo
  · intro he; subst he; simp [Char.le_def] at hlo
  · intro he; subst he; simp [Char.le_def] at hlo
  · simp only [isDigitByte, Bool.and_eq_true, decide_eq_true_eq]
    constructor <;> [skip; skip] <;> omega

theorem isAsciiDigits_natDigits (n : Nat) : isAsciiDigits (natDigits n) = true := by
  obtain ⟨c, t, heq, -⟩ := natDigits_cons n
  simp only [isAsciiDigits, Bool.and_eq_true, Bool.not_eq_true', List.all_eq_true]
  exact ⟨by simp [heq], natDigits_all_dig n⟩

theorem parseUnsigned_natDigits (n : Nat) : parseUnsigned (natDigits n) = some n := by
  obtain ⟨c, t, heq, -⟩ := natDigits_cons n
  have hplus : c ≠ '+' :=
    (isDig_char_facts (natDigits_all_dig n c (heq ▸ List.mem_cons_self c t))).2.2.1
  have hd := isAsciiDigits_natDigits n
  have hv := digitsToNat_natDigits n
  have hh : (natDigits n).head? = some c := by rw [heq]; rfl
  simp [parseUnsigned, hh, hplus, hd, hv]

theorem u32_from_str_natDigits {n : Nat} (h : n < 4294967296) :
    u32_from_str (natDigits n) = some n := by
  simp [u32_from_str, parseUnsigned_natDigits, h]

theorem usize_from_str_natDigits {n : Nat} (h : n < 18446744073709551616) :
    usize_from_str (natDigits n) = some n := by
  simp [usize_from_str, parseUnsigned_natDigits, h]

theorem natDigits_head_ne {n : Nat} {c : Char} (h1 : 1 ≤ n) (h2 : ¬ isDig c = true ∨ c = '0') :
    (natDigits n).head? ≠ some c := by
  obtain ⟨d, t, heq, hnz⟩ := natDigits_cons n
  have hd := natDigits_all_dig n d (heq ▸ List.mem_cons_self d t)
  rw [heq]
  simp only [List.head?_cons, ne_eq, Option.some.injEq]
  intro he
  subst he
  rcases h2 with h2 | h2
  · exact h2 hd
  · exact hnz h1 h2

theorem signSplit_of_head {c : Char} (t : List Char) (hp : c ≠ '+') (hm : c ≠ '-') :
    signSplit (c :: t) = (false, c :: t) := by
  simp [signSplit, hp, hm]

theorem signSplit_neg (t : List Char) : signSplit ('-' :: t) = (true, t) := by
  simp [signSplit]

theorem intRepr_shape (i : Int) :
    (0 ≤ i ∧ intRepr i = natDigits i.natAbs) ∨
      (i < 0 ∧ intRepr i = '-' :: natDigits i.natAbs) := by
  by_cases h : i < 0
  · exact Or.inr ⟨h, by simp [intRepr, h]⟩
  · exact Or.inl ⟨by omega, by simp [intRepr, h]⟩

theorem i64_from_str_intRepr {i : Int}
    (hlo : -9223372036854775808 ≤ i) (hhi : i < 9223372036854775808) :
    i64_from_str (intRepr i) = some i := by
  rcases intRepr_shape i with ⟨hpos, heq⟩ | ⟨hneg, heq⟩
  · obtain ⟨c, t, hct, -⟩ := natDigits_cons i.natAbs
    have hd := natDigits_all_dig i.natAbs c (hct ▸ List.mem_cons_self c t)
    have hfacts := isDig_char_facts hd
    rw [heq, hct]
    rw [← hct]
    simp only [i64_from_str]
    rw [hct, signSplit_of_head t hfacts.2.2.1 hfacts.2.2.2.1, ← hct]
    have hnat : (digitsToNat (natDigits i.natAbs) : Int) = i := by
      rw [digitsToNat_natDigits]
      omega
    simp [isAsciiDigits_natDigits, hnat, hlo, hhi]
  · rw [heq]
    simp only [i64_from_str, signSplit_neg]
    have hnat : (digitsToNat (natDigits i.natAbs) : Int) = -i := by
      rw [digitsToNat_natDigits]
      omega
    have : -(digitsToNat (natDigits i.natAbs) : Int) = i := by omega
    simp [isAsciiDigits_natDigits, this, hlo, hhi]

theorem bigint_from_str_intRepr (i : Int) : bigint_from_str (intRepr i) = some i := by
  rcases intRepr_shape i with ⟨hpos, heq⟩ | ⟨hneg, heq⟩
  · obtain ⟨c, t, hct, -⟩ := natDigits_cons i.natAbs
    have hd := natDigits_all_dig i.natAbs c (hct ▸ List.mem_cons_self c t)
    have hfacts := isDig_char_facts hd
    rw [heq]
    simp only [bigint_from_str]
    rw [hct, signSplit_of_head t hfacts.2.2.1 hfacts.2.2.2.1, ← hct]
    have hnat : (digitsToNat (natDigits i.natAbs) : Int) = i := by
      rw [digitsToNat_natDigits]
      omega
    simp [isAsciiDigits_natDigits, hnat]
  · rw [heq]
    simp only [bigint_from_str, signSplit_neg]
    have : -(digitsToNat (natDigits i.natAbs) : Int) = i := by
      rw [digitsToNat_natDigits]
      omega
    simp [isAsciiDigits_natDigits, this]

/-!  ## Lemmas: primitive parsers -/

theorem containsCRLF_of_no_cr {s : List Char} (h : ∀ c ∈ s, c ≠ '\r') :
    containsCRLF s = false := by
  induction s with
  | nil => rfl
  | cons c t ih =>
    have hc : c ≠ '\r' := h c (List.mem_cons_self c t)
    have ht := ih fun x hx => h x (List.mem_cons_of_mem c hx)
    simp [containsCRLF, hc, ht]

theorem splitAtCRLF_append {pre : List Char} (suf : List Char)
    (h : containsCRLF pre = false) :
    splitAtCRLF (pre ++ '\r' :: '\n' :: suf) = some (pre, '\r' :: '\n' :: suf) := by
  induction pre with
  | nil => rfl
  | cons c t ih =>
    simp only [containsCRLF, Bool.or_eq_false_iff, Bool.and_eq_false_iff] at h
    obtain ⟨hhead, htail⟩ := h
    have hrec := ih htail
    show splitAtCRLF (c :: (t ++ '\r' :: '\n' :: suf)) = _
    have hguard : (c == '\r' && (t ++ '\r' :: '\n' :: suf).head? == some '\n') = false := by
      rcases t with - | ⟨d, u⟩
      · simp
      · rcases hhead with hh | hh
        · simp [hh]
        · simp only [List.head?_cons] at hh ⊢
          simp [hh]
    rw [splitAtCRLF, hguard]
    simp only [Bool.false_eq_true, if_false, hrec]

theorem takeUntilCRLF_append {pre : List Char} (suf : List Char)
    (h : containsCRLF pre = false) :
    takeUntilCRLF (pre ++ '\r' :: '\n' :: suf) = .ok ('\r' :: '\n' :: suf) pre := by
  simp [takeUntilCRLF, splitAtCRLF_append suf h]

theorem startsWith_append (t rest : List Char) : startsWith (t ++ rest) t = true := by
  induction t with
  | nil => cases rest <;> rfl
  | cons c u ih => simp [startsWith, ih]

theorem ptag_append (t rest : List Char) : ptag t (t ++ rest) = .ok rest t := by
  simp [ptag, startsWith_append, List.drop_left]

theorem pcrlf_append (rest : List Char) : pcrlf ('\r' :: '\n' :: rest) = .ok rest (str "\r\n") := by
  have := ptag_append (str "\r\n") rest
  simpa [str_crlf] using this

theorem ptake_append (a b : List Char) : ptake a.length (a ++ b) = .ok b a := by
  simp [ptake, List.drop_left, List.take_left]

theorem takeWhile_append_of_all {p : Char → Bool} {a : List Char} {c : Char}
    (ha : ∀ x ∈ a, p x = true) (hc : p c = false) (t : List Char) :
    (a ++ c :: t).takeWhile p = a ∧ (a ++ c :: t).dropWhile p = c :: t := by
  induction a with
  | nil => simp [List.takeWhile, List.dropWhile, hc]
  | cons x u ih =>
    have hx : p x = true := ha x (List.mem_cons_self x u)
    obtain ⟨h1, h2⟩ := ih fun y hy => ha y (List.mem_cons_of_mem x hy)
    simp [List.takeWhile, List.dropWhile, hx, h1, h2]

theorem ptakeWhile_append_of_all {p : Char → Bool} {a : List Char} {c : Char}
    (ha : ∀ x ∈ a, p x = true) (hc : p c = false) (t : List Char) :
    ptakeWhile p (a ++ c :: t) = .ok (c :: t) a := by
  obtain ⟨h1, h2⟩ := takeWhile_append_of_all ha hc t
  simp [ptakeWhile, h1, h2]

theorem altP_err {α : Type} {p q : List Char → PResult α} {input : List Char}
    (h : p input = .err) : altP p q input = q input := by
  simp [altP, h]

theorem altP_ok {α : Type} {p q : List Char → PResult α} {input rest : List Char} {v : α}
    (h : p input = .ok rest v) : altP p q input = .ok rest v := by
  simp [altP, h]

theorem altP_panic {α : Type} {p q : List Char → PResult α} {input : List Char}
    (h : p input = .panic) : altP p q input = .panic := by
  simp [altP, h]

/-!  ## Lemmas: head dispatch of `data_type` -/

theorem pchar_ne {c d : Char} (s : List Char) (h : c ≠ d) : pchar d (c :: s) = .err := by
  simp [pchar, h]

theorem ptag_cons_ne {c d : Char} (t s : List Char) (h : c ≠ d) :
    ptag (d :: t) (c :: s) = .err := by
  simp [ptag, startsWith, h]

theorem simple_string_ne {c : Char} (s : List Char) (h : c ≠ '+') :
    simple_string (c :: s) = .err := by
  simp [simple_string, pbind, pchar_ne s h]

theorem simple_error_ne {c : Char} (s : List Char) (h : c ≠ '-') :
    simple_error (c :: s) = .err := by
  simp [simple_error, pbind, pchar_ne s h]

theorem bulk_string_ne {c : Char} (s : List Char) (h : c ≠ '$') :
    bulk_string (c :: s) = .err := by
  have h1 : bulk_string_nil (c :: s) = .err := by
    have : str "$-1" = '$' :: str "-1" := rfl
    simp [bulk_string_nil, pbind, this, ptag_cons_ne _ s h]
  have h2 : bulk_string_empty (c :: s) = .err := by
    have : str "$0" = '$' :: str "0" := rfl
    simp [bulk_string_empty, pbind, this, ptag_cons_ne _ s h]
  have h3 : bulk_string_with_content (c :: s) = .err := by
    simp [bulk_string_with_content, pbind, pchar_ne s h]
  simp [bulk_string, altP_err h1, altP_err h2, h3]

theorem bulk_error_ne {c : Char} (s : List Char) (h : c ≠ '!') :
    bulk_error (c :: s) = .err := by
  have h1 : bulk_error_empty (c :: s) = .err := by
    have : str "!0" = '!' :: str "0" := rfl
    simp [bulk_error_empty, pbind, this, ptag_cons_ne _ s h]
  have h2 : bulk_error_with_content (c :: s) = .err := by
    simp [bulk_error_with_content, pbind, pchar_ne s h]
  simp [bulk_error, altP_err h1, h2]

theorem big_number_ne {c : Char} (s : List Char) (h : c ≠ '(') :
    big_number (c :: s) = .err := by
  simp [big_number, pbind, pchar_ne s h]

theorem integer_ne {c : Char} (s : List Char) (h : c ≠ ':') :
    integer (c :: s) = .err := by
  simp [integer, pbind, pchar_ne s h]

theorem boolean_ne {c : Char} (s : List Char) (h : c ≠ '#') :
    boolean (c :: s) = .err := by
  have h1 : boolean_true (c :: s) = .err := by
    have : str "#t" = '#' :: str "t" := rfl
    simp [boolean_true, pbind, this, ptag_cons_ne _ s h]
  have h2 : boolean_false (c :: s) = .err := by
    have : str "#f" = '#' :: str "f" := rfl
    simp [boolean_false, pbind, this, ptag_cons_ne _ s h]
  simp [boolean, altP_err h1, h2]

theorem double_ne {c : Char} (s : List Char) (h : c ≠ ',') :
    double (c :: s) = .err := by
  have h1 : double_infinity (c :: s) = .err := by
    have : str ",inf" = ',' :: str "inf" := rfl
    simp [double_infinity, pbind, this, ptag_cons_ne _ s h]
  have h2 : double_negative_infinity (c :: s) = .err := by
    have : str ",-inf" = ',' :: str "-inf" := rfl
    simp [double_negative_infinity, pbind, this, ptag_cons_ne _ s h]
  have h3 : double_not_a_number (c :: s) = .err := by
    have : str ",nan" = ',' :: str "nan" := rfl
    simp [double_not_a_number, pbind, this, ptag_cons_ne _ s h]
  have h4 : double_number (c :: s) = .err := by
    simp [double_number, pbind, pchar_ne s h]
  simp [double, altP_err h1, altP_err h2, altP_err h3, h4]

theorem array_ne {c : Char} (dt : List Char → PResult ProtocolDataType) (s : List Char)
    (h : c ≠ '*') : array dt (c :: s) = .err := by
  have h1 : array_empty (c :: s) = .err := by
    have : str "*0" = '*' :: str "0" := rfl
    simp [array_empty, pbind, this, ptag_cons_ne _ s h]
  have h2 : array_with_elements dt (c :: s) = .err := by
    simp [array_with_elements, pbind, pchar_ne s h]
  simp [array, altP_err h1, h2]

theorem null_ne {c : Char} (s : List Char) (h : c ≠ '_') : null (c :: s) = .err := by
  simp [null, pbind, pchar_ne s h]

theorem data_type_not_marker (f : Nat) {c : Char} (s : List Char)
    (h : ∀ d ∈ markers, c ≠ d) : data_type (f + 1) (c :: s) = .err := by
  show altP simple_string _ (c :: s) = .err
  rw [altP_err (simple_string_ne s (h '+' (by simp [markers])))]
  rw [altP_err (simple_error_ne s (h '-' (by simp [markers])))]
  rw [altP_err (bulk_string_ne s (h '$' (by simp [markers])))]
  rw [altP_err (bulk_error_ne s (h '!' (by simp [markers])))]
  rw [altP_err (big_number_ne s (h '(' (by simp [markers])))]
  rw [altP_err (integer_ne s (h ':' (by simp [markers])))]
  rw [altP_err (boolean_ne s (h '#' (by simp [markers])))]
  rw [altP_err (double_ne s (h ',' (by simp [markers])))]
  rw [altP_err (array_ne _ s (h '*' (by simp [markers])))]
  exact null_ne s (h '_' (by simp [markers]))

theorem altP_eq_left {α : Type} {p q : List Char → PResult α} {input : List Char}
    (h : q input = .err) : altP p q input = p input := by
  cases hp : p input <;> simp [altP, hp, h]

theorem data_type_plus (f : Nat) (s : List Char) :
    data_type (f + 1) ('+' :: s) = simple_string ('+' :: s) := by
  show altP simple_string _ ('+' :: s) = _
  refine altP_eq_left ?_
  rw [altP_err (simple_error_ne s (by decide))]
  rw [altP_err (bulk_string_ne s (by decide))]
  rw [altP_err (bulk_error_ne s (by decide))]
  rw [altP_err (big_number_ne s (by decide))]
  rw [altP_err (integer_ne s (by decide))]
  rw [altP_err (boolean_ne s (by decide))]
  rw [altP_err (double_ne s (by decide))]
  rw [altP_err (array_ne _ s (by decide))]
  exact null_ne s (by decide)

theorem data_type_minus (f : Nat) (s : List Char) :
    data_type (f + 1) ('-' :: s) = simple_error ('-' :: s) := by
  show altP simple_string _ ('-' :: s) = _
  rw [altP_err (simple_string_ne s (by decide))]
  refine altP_eq_left ?_
  rw [altP_err (bulk_string_ne s (by decide))]
  rw [altP_err (bulk_error_ne s (by decide))]
  rw [altP_err (big_number_ne s (by decide))]
  rw [altP_err (integer_ne s (by decide))]
  rw [altP_err (boolean_ne s (by decide))]
  rw [altP_err (double_ne s (by decide))]
  rw [altP_err (array_ne _ s (by decide))]
  exact null_ne s (by decide)

theorem data_type_dollar (f : Nat) (s : List Char) :
    data_type (f + 1) ('$' :: s) = bulk_string ('$' :: s) := by
  show altP simple_string _ ('$' :: s) = _
  rw [altP_err (simple_string_ne s (by decide))]
  rw [altP_err (simple_error_ne s (by decide))]
  refine altP_eq_left ?_
  rw [altP_err (bulk_error_ne s (by decide))]
  rw [altP_err (big_number_ne s (by decide))]
  rw [altP_err (integer_ne s (by decide))]
  rw [altP_err (boolean_ne s (by decide))]
  rw [altP_err (double_ne s (by decide))]
  rw [altP_err (array_ne _ s (by decide))]
  exact null_ne s (by decide)

theorem data_type_bang (f : Nat) (s : List Char) :
    data_type (f + 1) ('!' :: s) = bulk_error ('!' :: s) := by
  show altP simple_string _ ('!' :: s) = _
  rw [altP_err (simple_string_ne s (by decide))]
  rw [altP_err (simple_error_ne s (by decide))]
  rw [altP_err (bulk_string_ne s (by decide))]
  refine altP_eq_left ?_
  rw [altP_err (big_number_ne s (by decide))]
  rw [altP_err (integer_ne s (by decide))]
  rw [altP_err (boolean_ne s (by decide))]
  rw [altP_err (double_ne s (by decide))]
  rw [altP_err (array_ne _ s (by decide))]
  exact null_ne s (by decide)

theorem data_type_paren (f : Nat) (s : List Char) :
    data_type (f + 1) ('(' :: s) = big_number ('(' :: s) := by
  show altP simple_string _ ('(' :: s) = _
  rw [altP_err (simple_string_ne s (by decide))]
  rw [altP_err (simple_error_ne s (by decide))]
  rw [altP_err (bulk_string_ne s (by decide))]
  rw [altP_err (bulk_error_ne s (by decide))]
  refine altP_eq_left ?_
  rw [altP_err (integer_ne s (by decide))]
  rw [altP_err (boolean_ne s (by decide))]
  rw [altP_err (double_ne s (by decide))]
  rw [altP_err (array_ne _ s (by decide))]
  exact null_ne s (by decide)

theorem data_type_colon (f : Nat) (s : List Char) :
    data_type (f + 1) (':' :: s) = integer (':' :: s) := by
  show altP simple_string _ (':' :: s) = _
  rw [altP_err (simple_string_ne s (by decide))]
  rw [altP_err (simple_error_ne s (by decide))]
  rw [altP_err (bulk_string_ne s (by decide))]
  rw [altP_err (bulk_error_ne s (by decide))]
  rw [altP_err (big_number_ne s (by decide))]
  refine altP_eq_left ?_
  rw [altP_err (boolean_ne s (by decide))]
  rw [altP_err (double_ne s (by decide))]
  rw [altP_err (array_ne _ s (by decide))]
  exact null_ne s (by decide)

theorem data_type_hash (f : Nat) (s : List Char) :
    data_type (f + 1) ('#' :: s) = boolean ('#' :: s) := by
  show altP simple_string _ ('#' :: s) = _
  rw [altP_err (simple_string_ne s (by decide))]
  rw [altP_err (simple_error_ne s (by decide))]
  rw [altP_err (bulk_string_ne s (by decide))]
  rw [altP_err (bulk_error_ne s (by decide))]
  rw [altP_err (big_number_ne s (by decide))]
  rw [altP_err (integer_ne s (by decide))]
  refine altP_eq_left ?_
  rw [altP_err (double_ne s (by decide))]
  rw [altP_err (array_ne _ s (by decide))]
  exact null_ne s (by decide)

theorem data_type_comma (f : Nat) (s : List Char) :
    data_type (f + 1) (',' :: s) = double (',' :: s) := by
  show altP simple_string _ (',' :: s) = _
  rw [altP_err (simple_string_ne s (by decide))]
  rw [altP_err (simple_error_ne s (by decide))]
  rw [altP_err (bulk_string_ne s (by decide))]
  rw [altP_err (bulk_error_ne s (by decide))]
  rw [altP_err (big_number_ne s (by decide))]
  rw [altP_err (integer_ne s (by decide))]
  rw [altP_err (boolean_ne s (by decide))]
  refine altP_eq_left ?_
  rw [altP_err (array_ne _ s (by decide))]
  exact null_ne s (by decide)

theorem data_type_star (f : Nat) (s : List Char) :
    data_type (f + 1) ('*' :: s) = array (data_type f) ('*' :: s) := by
  show altP simple_string _ ('*' :: s) = _
  rw [altP_err (simple_string_ne s (by decide))]
  rw [altP_err (simple_error_ne s (by decide))]
  rw [altP_err (bulk_string_ne s (by decide))]
  rw [altP_err (bulk_error_ne s (by decide))]
  rw [altP_err (big_number_ne s (by decide))]
  rw [altP_err (integer_ne s (by decide))]
  rw [altP_err (boolean_ne s (by decide))]
  rw [altP_err (double_ne s (by decide))]
  exact altP_eq_left (null_ne s (by decide))

theorem data_type_underscore (f : Nat) (s : List Char) :
    data_type (f + 1) ('_' :: s) = null ('_' :: s) := by
  show altP simple_string _ ('_' :: s) = _
  rw [altP_err (simple_string_ne s (by decide))]
  rw [altP_err (simple_error_ne s (by decide))]
  rw [altP_err (bulk_string_ne s (by decide))]
  rw [altP_err (bulk_error_ne s (by decide))]
  rw [altP_err (big_number_ne s (by decide))]
  rw [altP_err (integer_ne s (by decide))]
  rw [altP_err (boolean_ne s (by decide))]
  rw [altP_err (double_ne s (by decide))]
  rw [altP_err (array_ne _ s (by decide))]

/-!  ## Lemmas: each variant parses its own serialization -/

theorem null_parse (rest : List Char) :
    null ('_' :: '\r' :: '\n' :: rest) = .ok rest ProtocolDataType.Null := by
  simp [null, pbind, pchar, pcrlf_append]

theorem boolean_parse (b : Bool) (rest : List Char) :
    boolean ('#' :: (if b then 't' else 'f') :: '\r' :: '\n' :: rest) =
      .ok rest (ProtocolDataType.Boolean b) := by
  cases b
  · have h1 : boolean_true ('#' :: 'f' :: '\r' :: '\n' :: rest) = .err := by
      simp [boolean_true, pbind, ptag, startsWith, str]
    have h2 : boolean_false ('#' :: 'f' :: '\r' :: '\n' :: rest) =
        .ok rest (ProtocolDataType.Boolean false) := by
      have he : ('#' :: 'f' :: '\r' :: '\n' :: rest : List Char) =
          str "#f" ++ ('\r' :: '\n' :: rest) := rfl
      rw [boolean_false, he]
      simp only [ptag_append, pbind, pcrlf_append]
    simp [boolean, altP_err h1, h2]
  · have h2 : boolean_true ('#' :: 't' :: '\r' :: '\n' :: rest) =
        .ok rest (ProtocolDataType.Boolean true) := by
      have he : ('#' :: 't' :: '\r' :: '\n' :: rest : List Char) =
          str "#t" ++ ('\r' :: '\n' :: rest) := rfl
      rw [boolean_true, he]
      simp only [ptag_append, pbind, pcrlf_append]
    simp [boolean, altP_ok h2]

theorem pchar_eq (c : Char) (s : List Char) : pchar c (c :: s) = .ok s c := by
  simp [pchar]

theorem integer_body (body rest : List Char) (h : containsCRLF body = false) :
    integer (':' :: (body ++ '\r' :: '\n' :: rest)) =
      match i64_from_str body with
      | some i => .ok rest (ProtocolDataType.Integer i)
      | none => .panic := by
  simp only [integer, pchar_eq ':' (body ++ '\r' :: '\n' :: rest), pbind,
    takeUntilCRLF_append rest h, pcrlf_append]

theorem big_number_body (body rest : List Char) (h : containsCRLF body = false) :
    big_number ('(' :: (body ++ '\r' :: '\n' :: rest)) =
      match bigint_from_str body with
      | some n => .ok rest (ProtocolDataType.BigNumber n)
      | none => .panic := by
  simp only [big_number, pchar_eq '(' (body ++ '\r' :: '\n' :: rest), pbind,
    takeUntilCRLF_append rest h, pcrlf_append]

theorem double_number_body (body rest : List Char) (h : containsCRLF body = false) :
    double_number (',' :: (body ++ '\r' :: '\n' :: rest)) =
      match f64_from_str body with
      | some d => .ok rest (ProtocolDataType.Double d)
      | none => .panic := by
  simp only [double_number, pchar_eq ',' (body ++ '\r' :: '\n' :: rest), pbind,
    takeUntilCRLF_append rest h, pcrlf_append]

theorem simple_string_body (body rest : List Char) (h : containsCRLF body = false) :
    simple_string ('+' :: (body ++ '\r' :: '\n' :: rest)) =
      .ok rest (ProtocolDataType.SimpleString body) := by
  simp only [simple_string, pchar_eq '+' (body ++ '\r' :: '\n' :: rest), pbind,
    takeUntilCRLF_append rest h, pcrlf_append]

theorem simple_error_body (body rest : List Char) (h : containsCRLF body = false) :
    simple_error ('-' :: (body ++ '\r' :: '\n' :: rest)) =
      .ok rest (ProtocolDataType.SimpleError body) := by
  simp only [simple_error, pchar_eq '-' (body ++ '\r' :: '\n' :: rest), pbind,
    takeUntilCRLF_append rest h, pcrlf_append]

theorem utf8Size_ascii {c : Char} (h : c.toNat < 128) : c.utf8Size = 1 := by
  have hle : c.val ≤ UInt32.ofNatCore 127 Char.utf8Size.proof_1 := Nat.le_of_lt_succ h
  unfold Char.utf8Size
  rw [if_pos hle]

theorem utf8Len_ascii {s : List Char} (h : allAscii s = true) : utf8Len s = s.length := by
  induction s with
  | nil => rfl
  | cons c t ih =>
    simp only [allAscii, List.all_cons, Bool.and_eq_true, decide_eq_true_eq] at h
    obtain ⟨hc, ht⟩ := h
    have := ih (by simpa [allAscii] using ht)
    simp [utf8Len, List.map_cons, List.sum_cons, utf8Size_ascii hc] at this ⊢
    omega

theorem bulk_content_parse (digits payload rest : List Char) (count : Nat)
    (hd : ∀ c ∈ digits, isDigitByte c = true)
    (hu : u32_from_str digits = some count)
    (hlen : payload.length = count) :
    bulk_string_with_content
        ('$' :: (digits ++ '\r' :: '\n' :: (payload ++ '\r' :: '\n' :: rest))) =
      .ok rest (ProtocolDataType.BulkString payload) := by
  have htw := ptakeWhile_append_of_all hd (by decide : isDigitByte '\r' = false)
    ('\n' :: (payload ++ '\r' :: '\n' :: rest))
  have htk : ptake count ((payload ++ '\r' :: '\n' :: rest)) =
      .ok ('\r' :: '\n' :: rest) payload := by
    rw [← hlen, ptake_append]
  simp only [bulk_string_with_content,
    pchar_eq '$' (digits ++ '\r' :: '\n' :: (payload ++ '\r' :: '\n' :: rest)),
    pbind, htw, hu, pcrlf_append, htk]

theorem bulk_error_content_parse (digits payload rest : List Char) (count : Nat)
    (hd : ∀ c ∈ digits, isDigitByte c = true)
    (hu : u32_from_str digits = some count)
    (hlen : payload.length = count) :
    bulk_error_with_content
        ('!' :: (digits ++ '\r' :: '\n' :: (payload ++ '\r' :: '\n' :: rest))) =
      .ok rest (ProtocolDataType.BulkError payload) := by
  have htw := ptakeWhile_append_of_all hd (by decide : isDigitByte '\r' = false)
    ('\n' :: (payload ++ '\r' :: '\n' :: rest))
  have htk : ptake count ((payload ++ '\r' :: '\n' :: rest)) =
      .ok ('\r' :: '\n' :: rest) payload := by
    rw [← hlen, ptake_append]
  simp only [bulk_error_with_content,
    pchar_eq '!' (digits ++ '\r' :: '\n' :: (payload ++ '\r' :: '\n' :: rest)),
    pbind, htw, hu, pcrlf_append, htk]

theorem bulk_string_empty_parse (rest : List Char) :
    bulk_string ('$' :: '0' :: '\r' :: '\n' :: rest) =
      .ok rest (ProtocolDataType.BulkString []) := by
  have h1 : bulk_string_nil ('$' :: '0' :: '\r' :: '\n' :: rest) = .err := by
    simp [bulk_string_nil, pbind, ptag, startsWith, str]
  have h2 : bulk_string_empty ('$' :: '0' :: '\r' :: '\n' :: rest) =
      .ok rest (ProtocolDataType.BulkString []) := by
    have he : ('$' :: '0' :: '\r' :: '\n' :: rest : List Char) =
        str "$0" ++ ('\r' :: '\n' :: rest) := rfl
    rw [bulk_string_empty, he]
    simp only [ptag_append, pbind, pcrlf_append]
  simp [bulk_string, altP_err h1, altP_ok h2]

theorem bulk_string_nonempty_parse (payload rest : List Char)
    (hne : payload.length ≥ 1) (hlen : payload.length < 4294967296) :
    bulk_string
        ('$' :: (natDigits payload.length ++ '\r' :: '\n' :: (payload ++ '\r' :: '\n' :: rest))) =
      .ok rest (ProtocolDataType.BulkString payload) := by
  obtain ⟨c, t, hct, hnz⟩ := natDigits_cons payload.length
  have hdig := natDigits_all_dig payload.length
  have hcdig : isDig c = true := hdig c (hct ▸ List.mem_cons_self c t)
  have hfacts := isDig_char_facts hcdig
  have h1 : bulk_string_nil
      ('$' :: (natDigits payload.length ++ '\r' :: '\n' :: (payload ++ '\r' :: '\n' :: rest))) =
      .err := by
    rw [bulk_string_nil, hct]
    have : ptag (str "$-1")
        ('$' :: c :: (t ++ '\r' :: '\n' :: (payload ++ '\r' :: '\n' :: rest))) = .err := by
      simp [ptag, startsWith, str, beq_eq_false_iff_ne.mpr hfacts.2.2.2.1]
    simp [pbind, this]
  have h2 : bulk_string_empty
      ('$' :: (natDigits payload.length ++ '\r' :: '\n' :: (payload ++ '\r' :: '\n' :: rest))) =
      .err := by
    rw [bulk_string_empty, hct]
    have : ptag (str "$0")
        ('$' :: c :: (t ++ '\r' :: '\n' :: (payload ++ '\r' :: '\n' :: rest))) = .err := by
      simp [ptag, startsWith, str, beq_eq_false_iff_ne.mpr (hnz hne)]
    simp [pbind, this]
  have h3 := bulk_content_parse (natDigits payload.length) payload rest payload.length
    (fun x hx => (isDig_char_facts (hdig x hx)).2.2.2.2.2.1)
    (u32_from_str_natDigits hlen) rfl
  simp [bulk_string, altP_err h1, altP_err h2, h3]

theorem bulk_error_nonempty_parse (payload rest : List Char)
    (hne : payload.length ≥ 1) (hlen : payload.length < 4294967296) :
    bulk_error
        ('!' :: (natDigits payload.length ++ '\r' :: '\n' :: (payload ++ '\r' :: '\n' :: rest))) =
      .ok rest (ProtocolDataType.BulkError payload) := by
  obtain ⟨c, t, hct, hnz⟩ := natDigits_cons payload.length
  have hdig := natDigits_all_dig payload.length
  have hcdig : isDig c = true := hdig c (hct ▸ List.mem_cons_self c t)
  have h1 : bulk_error_empty
      ('!' :: (natDigits payload.length ++ '\r' :: '\n' :: (payload ++ '\r' :: '\n' :: rest))) =
      .err := by
    rw [bulk_error_empty, hct]
    have : ptag (str "!0")
        ('!' :: c :: (t ++ '\r' :: '\n' :: (payload ++ '\r' :: '\n' :: rest))) = .err := by
      simp [ptag, startsWith, str, beq_eq_false_iff_ne.mpr (hnz hne)]
    simp [pbind, this]
  have h3 := bulk_error_content_parse (natDigits payload.length) payload rest payload.length
    (fun x hx => (isDig_char_facts (hdig x hx)).2.2.2.2.2.1)
    (u32_from_str_natDigits hlen) rfl
  simp [bulk_error, altP_err h1, h3]

theorem array_empty_parse (dt : List Char → PResult ProtocolDataType) (rest : List Char) :
    array dt ('*' :: '0' :: '\r' :: '\n' :: rest) =
      .ok rest (ProtocolDataType.Array ValueList.nil) := by
  have h : array_empty ('*' :: '0' :: '\r' :: '\n' :: rest) =
      .ok rest (ProtocolDataType.Array ValueList.nil) := by
    have he : ('*' :: '0' :: '\r' :: '\n' :: rest : List Char) =
        str "*0" ++ ('\r' :: '\n' :: rest) := rfl
    rw [array_empty, he]
    simp only [ptag_append, pbind, pcrlf_append]
  simp [array, altP_ok h]

theorem array_nonempty_parse (dt : List Char → PResult ProtocolDataType)
    (n : Nat) (body rest : List Char) (vs : ValueList)
    (hn : n ≥ 1) (hlim : n < 18446744073709551616)
    (helems : many_exact dt n body = .ok rest vs) :
    array dt ('*' :: (natDigits n ++ '\r' :: '\n' :: body)) =
      .ok rest (ProtocolDataType.Array vs) := by
  obtain ⟨c, t, hct, hnz⟩ := natDigits_cons n
  have hdig := natDigits_all_dig n
  have h1 : array_empty ('*' :: (natDigits n ++ '\r' :: '\n' :: body)) = .err := by
    rw [array_empty, hct]
    have : ptag (str "*0") ('*' :: c :: (t ++ '\r' :: '\n' :: body)) = .err := by
      simp [ptag, startsWith, str, beq_eq_false_iff_ne.mpr (hnz hn)]
    simp [pbind, this]
  have htw := ptakeWhile_append_of_all
    (fun x hx => (isDig_char_facts (hdig x hx)).2.2.2.2.2.1)
    (by decide : isDigitByte '\r' = false) ('\n' :: body)
  have h2 : array_with_elements dt ('*' :: (natDigits n ++ '\r' :: '\n' :: body)) =
      .ok rest (ProtocolDataType.Array vs) := by
    simp only [array_with_elements, pchar_eq '*' (natDigits n ++ '\r' :: '\n' :: body),
      pbind, htw, pcrlf_append, usize_from_str_natDigits hlim, helems]
  simp [array, altP_err h1, h2]

/-!  ## Lemmas: the double parsers on `Display` output -/

theorem all_takeWhile (p : Char → Bool) (l : List Char) :
    ∀ x ∈ l.takeWhile p, p x = true := by
  induction l with
  | nil => simp
  | cons c t ih =>
    by_cases hc : p c = true
    · simp only [List.takeWhile_cons, hc, if_true, List.mem_cons]
      rintro x (rfl | hx)
      · exact hc
      · exact ih x hx
    · simp [List.takeWhile_cons, hc]

theorem takeWhile_all {p : Char → Bool} {l : List Char} (h : ∀ x ∈ l, p x = true) :
    l.takeWhile p = l ∧ l.dropWhile p = [] := by
  induction l with
  | nil => simp
  | cons c t ih =>
    have hc := h c (List.mem_cons_self c t)
    obtain ⟨h1, h2⟩ := ih fun x hx => h x (List.mem_cons_of_mem c hx)
    simp [List.takeWhile_cons, List.dropWhile_cons, hc, h1, h2]

theorem toLower_digit {c : Char} (h : isDig c = true) : c.toLower = c := by
  simp only [isDig, Bool.and_eq_true, decide_eq_true_eq, Char.le_def] at h
  obtain ⟨h1, h2⟩ := h
  have hb' : c.toNat ≤ 57 := h2
  simp only [Char.toLower]
  split
  · next hcontra =>
    exfalso
    have ha' : 65 ≤ c.toNat := hcontra.1
    omega
  · rfl

theorem validFiniteRepr_parts {r : List Char} (h : validFiniteRepr r = true) :
    ∃ body d bt,
      (r = body ∨ r = '-' :: body) ∧ body = d :: bt ∧ isDig d = true ∧
        (∀ x ∈ body, isDig x = true ∨ x = '.') ∧ mantOk body = true := by
  simp only [validFiniteRepr, Bool.and_eq_true, Bool.or_eq_true] at h
  set body := if r.head? == some '-' then r.tail else r with hbody
  obtain ⟨hip, hrest⟩ := h
  have hshape : r = body ∨ r = '-' :: body := by
    by_cases hh : r.head? == some '-'
    · right
      rcases r with - | ⟨c, t⟩
      · simp at hh
      · simp only [List.head?_cons, beq_iff_eq, Option.some.injEq] at hh
        subst hh
        simp [hbody]
    · left
      simp [hbody, hh]
  have hipne : body.takeWhile isDig ≠ [] := by
    intro he
    rw [he] at hip
    simp at hip
  obtain ⟨d, bt, hd⟩ : ∃ d bt, body = d :: bt := by
    rcases hb : body with - | ⟨d, bt⟩
    · rw [hb] at hipne; simp at hipne
    · exact ⟨d, bt, rfl⟩
  have hdig : isDig d = true := by
    by_contra hcon
    rw [hd] at hipne
    simp [List.takeWhile_cons, hcon] at hipne
  have hdropshape : body.dropWhile isDig = [] ∨
      ∃ frac, body.dropWhile isDig = '.' :: frac ∧ frac ≠ [] ∧ ∀ x ∈ frac, isDig x = true := by
    rcases hrest with hrest | hrest
    · left
      simpa using hrest
    · right
      obtain ⟨⟨hh, hne⟩, hall⟩ := hrest
      rcases hdw : body.dropWhile isDig with - | ⟨e, fr⟩
      · rw [hdw] at hh; simp at hh
      · rw [hdw] at hh hne hall
        simp only [List.head?_cons, beq_iff_eq, Option.some.injEq] at hh
        subst hh
        refine ⟨fr, rfl, ?_, ?_⟩
        · intro hfr
          rw [hfr] at hne
          simp at hne
        · intro x hx
          simp only [List.tail_cons, List.all_eq_true] at hall
          exact hall x hx
  have hmembers : ∀ x ∈ body, isDig x = true ∨ x = '.' := by
    intro x hx
    rw [← List.takeWhile_append_dropWhile (p := isDig) (l := body)] at hx
    rcases List.mem_append.mp hx with hx | hx
    · exact Or.inl (all_takeWhile isDig body x hx)
    · rcases hdropshape with hdrop | ⟨frac, hdrop, -, hfr⟩
      · rw [hdrop] at hx; simp at hx
      · rw [hdrop] at hx
        rcases List.mem_cons.mp hx with rfl | hx
        · exact Or.inr rfl
        · exact Or.inl (hfr x hx)
  have hmant : mantOk body = true := by
    simp only [mantOk]
    rcases hdropshape with hdrop | ⟨frac, hdrop, hfne, hfr⟩
    · rw [hdrop]
      simpa using hip
    · rw [hdrop]
      simp only [Bool.and_eq_true, Bool.or_eq_true, List.all_eq_true]
      exact ⟨fun x hx => hfr x hx, Or.inl (by simpa using hip)⟩
  exact ⟨body, d, bt, hshape, hd, hdig, hmembers, hmant⟩

theorem f64_from_str_valid {r : List Char} (h : validFiniteRepr r = true) :
    f64_from_str r = some (F64.finite r) := by
  obtain ⟨body, d, bt, hshape, hbd, hdig, hmem, hmant⟩ := validFiniteRepr_parts h
  subst hbd
  have hfacts := isDig_char_facts hdig
  have hdi : d ≠ 'i' := fun he => by rw [he] at hdig; exact absurd hdig (by decide)
  have hdn : d ≠ 'n' := fun he => by rw [he] at hdig; exact absurd hdig (by decide)
  have hne1 : d :: bt.map Char.toLower ≠ str "inf" := fun he => by
    injection he with h1 _
    exact hdi h1
  have hne2 : d :: bt.map Char.toLower ≠ str "infinity" := fun he => by
    injection he with h1 _
    exact hdi h1
  have hne3 : d :: bt.map Char.toLower ≠ str "nan" := fun he => by
    injection he with h1 _
    exact hdn h1
  have hnum : isNumberBody (d :: bt) = true := by
    have hmem' : ∀ x ∈ d :: bt, (isDig x || x == '.') = true := by
      intro x hx
      rcases hmem x hx with hx1 | hx1 <;> simp [hx1]
    obtain ⟨ht, hd2⟩ := takeWhile_all hmem'
    simp only [isNumberBody, ht, hd2]
    simp [hmant, expOk]
  rcases hshape with hr | hr <;> subst hr
  · rw [f64_from_str, signSplit_of_head bt hfacts.2.2.1 hfacts.2.2.2.1]
    simp [toLower_digit hdig, hne1, hne2, hne3, hnum]
  · rw [f64_from_str, signSplit_neg]
    simp [toLower_digit hdig, hne1, hne2, hne3, hnum]

theorem double_finite_parse (r rest : List Char) (h : validFiniteRepr r = true) :
    double (',' :: (r ++ '\r' :: '\n' :: rest)) =
      .ok rest (ProtocolDataType.Double (F64.finite r)) := by
  obtain ⟨body, d, bt, hshape, hbd, hdig, hmem, hmant⟩ := validFiniteRepr_parts h
  subst hbd
  have hdi : d ≠ 'i' := fun he => by rw [he] at hdig; exact absurd hdig (by decide)
  have hdn : d ≠ 'n' := fun he => by rw [he] at hdig; exact absurd hdig (by decide)
  have hfacts := isDig_char_facts hdig
  have hnocr : containsCRLF r = false := by
    refine containsCRLF_of_no_cr fun c hc => ?_
    rcases hshape with hr | hr <;> subst hr
    · rcases hmem c hc with h1 | h1
      · exact (isDig_char_facts h1).1
      · subst h1; decide
    · rcases List.mem_cons.mp hc with rfl | hc
      · decide
      · rcases hmem c hc with h1 | h1
        · exact (isDig_char_facts h1).1
        · subst h1; decide
  have hA : double_infinity (',' :: (r ++ '\r' :: '\n' :: rest)) = .err := by
    rcases hshape with hr | hr <;> rw [hr, double_infinity]
    · have : ptag (str ",inf") (',' :: d :: (bt ++ '\r' :: '\n' :: rest)) = .err := by
        simp [ptag, startsWith, str, beq_eq_false_iff_ne.mpr hdi]
      simp [pbind, this]
    · have : ptag (str ",inf") (',' :: '-' :: d :: (bt ++ '\r' :: '\n' :: rest)) = .err := by
        simp [ptag, startsWith, str]
      simp [pbind, this]
  have hB : double_negative_infinity (',' :: (r ++ '\r' :: '\n' :: rest)) = .err := by
    rcases hshape with hr | hr <;> rw [hr, double_negative_infinity]
    · have : ptag (str ",-inf") (',' :: d :: (bt ++ '\r' :: '\n' :: rest)) = .err := by
        simp [ptag, startsWith, str, beq_eq_false_iff_ne.mpr hfacts.2.2.2.1]
      simp [pbind, this]
    · have : ptag (str ",-inf") (',' :: '-' :: d :: (bt ++ '\r' :: '\n' :: rest)) = .err := by
        simp [ptag, startsWith, str, beq_eq_false_iff_ne.mpr hdi]
      simp [pbind, this]
  have hC : double_not_a_number (',' :: (r ++ '\r' :: '\n' :: rest)) = .err := by
    rcases hshape with hr | hr <;> rw [hr, double_not_a_number]
    · have : ptag (str ",nan") (',' :: d :: (bt ++ '\r' :: '\n' :: rest)) = .err := by
        simp [ptag, startsWith, str, beq_eq_false_iff_ne.mpr hdn]
      simp [pbind, this]
    · have : ptag (str ",nan") (',' :: '-' :: d :: (bt ++ '\r' :: '\n' :: rest)) = .err := by
        simp [ptag, startsWith, str]
      simp [pbind, this]
  have hD : double_number (',' :: (r ++ '\r' :: '\n' :: rest)) =
      .ok rest (ProtocolDataType.Double (F64.finite r)) := by
    rw [double_number_body r rest hnocr, f64_from_str_valid h]
  simp [double, altP_err hA, altP_err hB, altP_err hC, hD]

theorem double_special_parse (rest : List Char) :
    double (',' :: 'n' :: 'a' :: 'n' :: '\r' :: '\n' :: rest) =
        .ok rest (ProtocolDataType.Double F64.nan) ∧
      double (',' :: 'i' :: 'n' :: 'f' :: '\r' :: '\n' :: rest) =
        .ok rest (ProtocolDataType.Double F64.inf) ∧
      double (',' :: '-' :: 'i' :: 'n' :: 'f' :: '\r' :: '\n' :: rest) =
        .ok rest (ProtocolDataType.Double F64.neginf) := by
  refine ⟨?_, ?_, ?_⟩
  · have h1 : double_infinity (',' :: 'n' :: 'a' :: 'n' :: '\r' :: '\n' :: rest) = .err := by
      simp [double_infinity, pbind, ptag, startsWith, str]
    have h2 : double_negative_infinity (',' :: 'n' :: 'a' :: 'n' :: '\r' :: '\n' :: rest) =
        .err := by
      simp [double_negative_infinity, pbind, ptag, startsWith, str]
    have h3 : double_not_a_number (',' :: 'n' :: 'a' :: 'n' :: '\r' :: '\n' :: rest) =
        .ok rest (ProtocolDataType.Double F64.nan) := by
      have he : (',' :: 'n' :: 'a' :: 'n' :: '\r' :: '\n' :: rest : List Char) =
          str ",nan" ++ ('\r' :: '\n' :: rest) := rfl
      rw [double_not_a_number, he]
      simp only [ptag_append, pbind, pcrlf_append]
    simp [double, altP_err h1, altP_err h2, altP_ok h3]
  · have h1 : double_infinity (',' :: 'i' :: 'n' :: 'f' :: '\r' :: '\n' :: rest) =
        .ok rest (ProtocolDataType.Double F64.inf) := by
      have he : (',' :: 'i' :: 'n' :: 'f' :: '\r' :: '\n' :: rest : List Char) =
          str ",inf" ++ ('\r' :: '\n' :: rest) := rfl
      rw [double_infinity, he]
      simp only [ptag_append, pbind, pcrlf_append]
    simp [double, altP_ok h1]
  · have h1 : double_infinity (',' :: '-' :: 'i' :: 'n' :: 'f' :: '\r' :: '\n' :: rest) =
        .err := by
      simp [double_infinity, pbind, ptag, startsWith, str]
    have h2 : double_negative_infinity (',' :: '-' :: 'i' :: 'n' :: 'f' :: '\r' :: '\n' :: rest) =
        .ok rest (ProtocolDataType.Double F64.neginf) := by
      have he : (',' :: '-' :: 'i' :: 'n' :: 'f' :: '\r' :: '\n' :: rest : List Char) =
          str ",-inf" ++ ('\r' :: '\n' :: rest) := rfl
      rw [double_negative_infinity, he]
      simp only [ptag_append, pbind, pcrlf_append]
    simp [double, altP_err h1, altP_ok h2]

/-!  ## Lemmas: the round trip -/

theorem intRepr_no_crlf (i : Int) : containsCRLF (intRepr i) = false := by
  refine containsCRLF_of_no_cr fun c hc => ?_
  rcases intRepr_shape i with ⟨-, heq⟩ | ⟨-, heq⟩ <;> rw [heq] at hc
  · exact (isDig_char_facts (natDigits_all_dig _ c hc)).1
  · rcases List.mem_cons.mp hc with rfl | hc
    · decide
    · exact (isDig_char_facts (natDigits_all_dig _ c hc)).1

theorem many_exact_ser (f : Nat)
    (ih : ∀ v, goodValue v = true → depthValue v < f →
      ∀ rest, data_type f (serialize v ++ rest) = .ok rest v) :
    ∀ (n : Nat) (l : ValueList), l.length = n → ∀ (rest : List Char),
      goodItems l = true → depthItems l < f →
      many_exact (data_type f) l.length (serializeItems l ++ rest) = .ok rest l := by
  intro n
  induction n with
  | zero =>
    intro l hl rest hg hd
    cases l with
    | nil => simp [many_exact, serializeItems, ValueList.length]
    | cons v vs => simp [ValueList.length] at hl
  | succ k ihk =>
    intro l hl rest hg hd
    cases l with
    | nil => simp [ValueList.length] at hl
    | cons v vs =>
      simp only [goodItems, Bool.and_eq_true] at hg
      obtain ⟨hgv, hgvs⟩ := hg
      simp only [depthItems] at hd
      have hdv : depthValue v < f := lt_of_le_of_lt (le_max_left _ _) hd
      have hdvs : depthItems vs < f := lt_of_le_of_lt (le_max_right _ _) hd
      have hvl : vs.length = k := by
        simp only [ValueList.length] at hl
        omega
      show many_exact (data_type f) (vs.length + 1)
        ((serialize v ++ serializeItems vs) ++ rest) = _
      rw [List.append_assoc]
      simp only [many_exact, ih v hgv hdv (serializeItems vs ++ rest), pbind,
        ihk vs hvl rest hgvs hdvs]

theorem data_type_serialize :
    ∀ (fuel : Nat) (v : ProtocolDataType), goodValue v = true → depthValue v < fuel →
      ∀ rest, data_type fuel (serialize v ++ rest) = .ok rest v := by
  intro fuel
  induction fuel with
  | zero =>
    intro v _ hd
    omega
  | succ f ih =>
    intro v hg hd rest
    cases v with
    | Null =>
      have hser : serialize ProtocolDataType.Null ++ rest = '_' :: '\r' :: '\n' :: rest := rfl
      rw [hser, data_type_underscore, null_parse]
    | Boolean b =>
      have hser : serialize (ProtocolDataType.Boolean b) ++ rest =
          '#' :: (if b then 't' else 'f') :: '\r' :: '\n' :: rest := by cases b <;> rfl
      rw [hser, data_type_hash, boolean_parse]
    | Integer i =>
      simp only [goodValue, Bool.and_eq_true, decide_eq_true_eq] at hg
      have hser : serialize (ProtocolDataType.Integer i) ++ rest =
          ':' :: (intRepr i ++ '\r' :: '\n' :: rest) := by
        simp [serialize, str_crlf]
      rw [hser, data_type_colon, integer_body _ _ (intRepr_no_crlf i),
        i64_from_str_intRepr hg.1 hg.2]
    | BigNumber n =>
      have hser : serialize (ProtocolDataType.BigNumber n) ++ rest =
          '(' :: (intRepr n ++ '\r' :: '\n' :: rest) := by
        simp [serialize, str_crlf]
      rw [hser, data_type_paren, big_number_body _ _ (intRepr_no_crlf n),
        bigint_from_str_intRepr n]
    | Double d =>
      cases d with
      | nan =>
        have hser : serialize (ProtocolDataType.Double F64.nan) ++ rest =
            ',' :: 'n' :: 'a' :: 'n' :: '\r' :: '\n' :: rest := rfl
        rw [hser, data_type_comma, (double_special_parse rest).1]
      | inf =>
        have hser : serialize (ProtocolDataType.Double F64.inf) ++ rest =
            ',' :: 'i' :: 'n' :: 'f' :: '\r' :: '\n' :: rest := rfl
        rw [hser, data_type_comma, (double_special_parse rest).2.1]
      | neginf =>
        have hser : serialize (ProtocolDataType.Double F64.neginf) ++ rest =
            ',' :: '-' :: 'i' :: 'n' :: 'f' :: '\r' :: '\n' :: rest := rfl
        rw [hser, data_type_comma, (double_special_parse rest).2.2]
      | finite r =>
        have hgr : validFiniteRepr r = true := by
          simpa [goodValue, goodF64] using hg
        have hser : serialize (ProtocolDataType.Double (F64.finite r)) ++ rest =
            ',' :: (r ++ '\r' :: '\n' :: rest) := by
          simp [serialize, F64.isNaN, F64.display, str_crlf]
        rw [hser, data_type_comma, double_finite_parse r rest hgr]
    | SimpleString s =>
      have hnocr : containsCRLF s = false := by
        simpa [goodValue] using hg
      have hser : serialize (ProtocolDataType.SimpleString s) ++ rest =
          '+' :: (s ++ '\r' :: '\n' :: rest) := by
        simp [serialize, str_crlf]
      rw [hser, data_type_plus, simple_string_body s rest hnocr]
    | SimpleError s =>
      have hnocr : containsCRLF s = false := by
        simpa [goodValue] using hg
      have hser : serialize (ProtocolDataType.SimpleError s) ++ rest =
          '-' :: (s ++ '\r' :: '\n' :: rest) := by
        simp [serialize, str_crlf]
      rw [hser, data_type_minus, simple_error_body s rest hnocr]
    | BulkString s =>
      rcases hs : s with - | ⟨c0, s0⟩
      · have hser : serialize (ProtocolDataType.BulkString []) ++ rest =
            '$' :: '0' :: '\r' :: '\n' :: rest := rfl
        rw [hser, data_type_dollar, bulk_string_empty_parse]
      · rw [← hs]
        simp only [goodValue, Bool.and_eq_true, decide_eq_true_eq] at hg
        obtain ⟨hascii, hlen⟩ := hg
        have hne : s.length ≥ 1 := by rw [hs]; simp
        have hbyte : utf8Len s = s.length := utf8Len_ascii hascii
        have hser : serialize (ProtocolDataType.BulkString s) ++ rest =
            '$' :: (natDigits s.length ++ '\r' :: '\n' :: (s ++ '\r' :: '\n' :: rest)) := by
          have hnonempty : s.isEmpty = false := by rw [hs]; rfl
          simp [serialize, hnonempty, hbyte, str_crlf]
        rw [hser, data_type_dollar, bulk_string_nonempty_parse s rest hne hlen]
    | BulkError s =>
      simp only [goodValue, Bool.and_eq_true, Bool.not_eq_true', decide_eq_true_eq] at hg
      obtain ⟨⟨hnonempty, hascii⟩, hlen⟩ := hg
      have hne : s.length ≥ 1 := List.length_pos.mpr
        (by intro h; rw [h] at hnonempty; simp at hnonempty)
      have hbyte : utf8Len s = s.length := utf8Len_ascii hascii
      have hser : serialize (ProtocolDataType.BulkError s) ++ rest =
          '!' :: (natDigits s.length ++ '\r' :: '\n' :: (s ++ '\r' :: '\n' :: rest)) := by
        simp [serialize, hbyte, str_crlf]
      rw [hser, data_type_bang, bulk_error_nonempty_parse s rest hne hlen]
    | Array items =>
      rcases hi : items with - | ⟨v0, vs0⟩
      · have hser : serialize (ProtocolDataType.Array ValueList.nil) ++ rest =
            '*' :: '0' :: '\r' :: '\n' :: rest := rfl
        rw [hser, data_type_star, array_empty_parse]
      · rw [← hi]
        simp only [goodValue, Bool.and_eq_true, decide_eq_true_eq] at hg
        obtain ⟨hlim, hgitems⟩ := hg
        have hn : items.length ≥ 1 := by rw [hi]; simp [ValueList.length]
        have hdepth : depthItems items < f := by
          simp only [depthValue] at hd
          omega
        have helems := many_exact_ser f (fun w hw hdw r => ih w hw hdw r) items.length
          items rfl rest hgitems hdepth
        have hlenpos : (items.length == 0) = false := by
          simp only [beq_eq_false_iff_ne]
          omega
        have hser : serialize (ProtocolDataType.Array items) ++ rest =
            '*' :: (natDigits items.length ++ '\r' :: '\n' :: (serializeItems items ++ rest)) := by
          simp [serialize, hlenpos, str_crlf]
        rw [hser, data_type_star,
          array_nonempty_parse (data_type f) items.length (serializeItems items ++ rest)
            rest items hn hlim helems]

theorem natDigits_length_pos (n : Nat) : 1 ≤ (natDigits n).length := by
  obtain ⟨c, t, heq, -⟩ := natDigits_cons n
  rw [heq]
  simp

mutual

theorem depth_le_len : ∀ (v : ProtocolDataType), depthValue v ≤ (serialize v).length
  | .Null => by simp [depthValue]
  | .Double d => by simp [depthValue]
  | .Boolean b => by simp [depthValue]
  | .Integer i => by simp [depthValue]
  | .BigNumber n => by simp [depthValue]
  | .BulkError s => by simp [depthValue]
  | .BulkString s => by simp [depthValue]
  | .SimpleError s => by simp [depthValue]
  | .SimpleString s => by simp [depthValue]
  | .Array items => by
    have h := depthItems_le_len items
    cases items with
    | nil =>
      simp [depthValue, depthItems, serialize, ValueList.length, str]
    | cons v vs =>
      have hlen : ((ValueList.cons v vs).length == 0) = false := by
        simp [ValueList.length]
      simp only [depthValue, serialize, hlen, Bool.false_eq_true, if_false]
      simp only [List.length_cons, List.length_append]
      omega

theorem depthItems_le_len : ∀ (l : ValueList), depthItems l ≤ (serializeItems l).length
  | .nil => by simp [depthItems, serializeItems]
  | .cons v vs => by
    have h1 := depth_le_len v
    have h2 := depthItems_le_len vs
    simp only [depthItems, serializeItems, List.length_append]
    omega

end

mutual

theorem protoEq_refl : ∀ (v : ProtocolDataType), protoEq v v = true
  | .Null => rfl
  | .Double d => by simp [protoEq]
  | .Boolean b => by simp [protoEq]
  | .Integer i => by simp [protoEq]
  | .BigNumber n => by simp [protoEq]
  | .BulkError s => by simp [protoEq]
  | .BulkString s => by simp [protoEq]
  | .SimpleError s => by simp [protoEq]
  | .SimpleString s => by simp [protoEq]
  | .Array items => by
    have h := protoEqList_refl items
    simp [protoEq, h]

theorem protoEqList_refl : ∀ (l : ValueList), protoEqList l l = true
  | .nil => rfl
  | .cons v vs => by
    have h1 := protoEq_refl v
    have h2 := protoEqList_refl vs
    simp [protoEqList, h1, h2]

end

theorem from_str_serialize {v : ProtocolDataType} (h : goodValue v = true) :
    from_str (serialize v) = .value v := by
  have hd : depthValue v < (serialize v).length + 1 := Nat.lt_succ_of_le (depth_le_len v)
  have hrun := data_type_serialize ((serialize v).length + 1) v h hd []
  rw [List.append_nil] at hrun
  rw [from_str, hrun]

/-!  ## Claim theorems -/

/-- C9: serializing the empty bulk string yields exactly `$0\r\n`, and
serializing the empty array yields exactly `*0\r\n` — the fixed short
encodings with no further payload bytes. -/
theorem C9_empty_aggregate_forms :
    serialize (ProtocolDataType.BulkString []) = str "$0\r\n" ∧
      serialize (ProtocolDataType.Array ValueList.nil) = str "*0\r\n" :=
  ⟨rfl, rfl⟩

/-- C2 (code evaluated at the failing input): the model's `PartialEq` on
`Double` returns `true` for the two distinct non-NaN doubles 1.0 and
2.0, because `lhs.is_nan() == rhs.is_nan()` is `false == false` there;
it also returns `true` for NaN/NaN and `false` for NaN versus a number.
The claim states `Double(1.0) ≠ Double(2.0)`; the code disagrees. -/
theorem C2_double_eq_failing_input :
    protoEq (ProtocolDataType.Double (F64.finite (str "1")))
        (ProtocolDataType.Double (F64.finite (str "2"))) = true ∧
      protoEq (ProtocolDataType.Double F64.nan) (ProtocolDataType.Double F64.nan) = true ∧
      protoEq (ProtocolDataType.Double F64.nan)
        (ProtocolDataType.Double (F64.finite (str "1"))) = false :=
  ⟨rfl, rfl, rfl⟩

/-- C10 counterexample: an integer token whose digits-only body exceeds
the 64-bit signed range makes `from_str` crash (the `unwrap` on
`i64::from_str` panics), not return an error — the claim as stated says
it reaches an error result. -/
theorem C10_cex_overflow_crashes :
    from_str (str ":9223372036854775808\r\n") = ParseOutcome.crash := by
  rfl

/-- C10 (amended): the entry point always yields a value, an error, or a
crash; on the three input families the claim lists — integer-tagged
overflow, non-numeric double body, non-numeric big-integer body — the
unwrap inside the nom `map` closure panics, so the outcome is a crash
rather than an error. -/
theorem C10_numeric_unwrap_crashes :
    from_str (str ":99999999999999999999\r\n") = ParseOutcome.crash ∧
      from_str (str ",xyz\r\n") = ParseOutcome.crash ∧
      from_str (str "(abc\r\n") = ParseOutcome.crash := by
  refine ⟨?_, ?_, ?_⟩ <;> rfl

/-- C4 counterexample: an integer token with the non-numeric body `abc`
makes `from_str` crash (panic in the `unwrap` on `i64::from_str`); the
claim as stated says parsing fails with a `Malformed` error result, not
a crash. -/
theorem C4_cex_malformed_body_crashes :
    from_str (str ":abc\r\n") = ParseOutcome.crash := by
  rfl

/-- C4 (amended): for an integer- or big-integer-tagged token, the
CRLF-delimited body is handed to `i64::from_str` / `BigInt::from_str`,
which accept an optional leading `+` or `-` sign followed by digits
(within the 64-bit signed range for the integer token); a body of that
shape parses to the corresponding value, and any other body makes the
parse crash (panicking `unwrap`), not return a `Malformed` error. -/
theorem C4_signed_numeric_tokens (body rest : List Char)
    (h : containsCRLF body = false) :
    from_str (':' :: (body ++ '\r' :: '\n' :: rest)) =
        (match i64_from_str body with
          | some i => ParseOutcome.value (ProtocolDataType.Integer i)
          | none => ParseOutcome.crash) ∧
      from_str ('(' :: (body ++ '\r' :: '\n' :: rest)) =
        (match bigint_from_str body with
          | some n => ParseOutcome.value (ProtocolDataType.BigNumber n)
          | none => ParseOutcome.crash) := by
  constructor
  · rw [from_str]
    simp only [List.length_cons]
    rw [data_type_colon, integer_body body rest h]
    cases i64_from_str body <;> rfl
  · rw [from_str]
    simp only [List.length_cons]
    rw [data_type_paren, big_number_body body rest h]
    cases bigint_from_str body <;> rfl

/-- C4 witness: the sign-and-digits body `+42` parses as integer and as
big integer. -/
theorem C4_signed_numeric_tokens_witness :
    from_str (str ":+42\r\n") = ParseOutcome.value (ProtocolDataType.Integer 42) ∧
      from_str (str "(+42\r\n") = ParseOutcome.value (ProtocolDataType.BigNumber 42) := by
  have h := C4_signed_numeric_tokens (str "+42") [] (by rfl)
  obtain ⟨h1, h2⟩ := h
  exact ⟨h1, h2⟩

/-- C5 counterexample: `ü` is one char of two UTF-8 bytes; the input
`$2\r\nü\r\n` declares the payload's byte length 2, but the parser's
`take(count)` consumes two *chars* (`ü` and the CR), so the trailing
CRLF check fails and the parse errors instead of producing
`BulkString("ü")` — the declared length is not consumed as bytes. -/
theorem C5_cex_bytes_vs_chars :
    from_str (str "$2\r\nü\r\n") = ParseOutcome.error ∧ utf8Len ['ü'] = 2 := by
  exact ⟨rfl, rfl⟩

/-- C5 (amended): for bulk-string and bulk-error tokens the parser reads
the declared decimal length first and then consumes exactly that many
*chars* of payload — even when the payload contains embedded CRLF
sequences — before requiring the trailing CRLF; length-prefixed framing
takes precedence over scanning for CRLF. (On the all-ASCII payloads the
serializer produces, chars and bytes coincide; the char/byte divergence
is the counterexample.) -/
theorem C5_length_prefixed_framing (payload rest : List Char)
    (hne : 1 ≤ payload.length) (hlen : payload.length < 4294967296) :
    from_str ('$' :: (natDigits payload.length ++
        '\r' :: '\n' :: (payload ++ '\r' :: '\n' :: rest))) =
      ParseOutcome.value (ProtocolDataType.BulkString payload) ∧
    from_str ('!' :: (natDigits payload.length ++
        '\r' :: '\n' :: (payload ++ '\r' :: '\n' :: rest))) =
      ParseOutcome.value (ProtocolDataType.BulkError payload) := by
  constructor
  · rw [from_str]
    simp only [List.length_cons]
    rw [data_type_dollar, bulk_string_nonempty_parse payload rest hne hlen]
  · rw [from_str]
    simp only [List.length_cons]
    rw [data_type_bang, bulk_error_nonempty_parse payload rest hne hlen]

/-- C5 witness: a payload with an embedded CRLF (`a\r\nb`, declared
length 4) is consumed whole by the framing, for both bulk kinds. -/
theorem C5_length_prefixed_framing_witness :
    from_str (str "$4\r\na\r\nb\r\n") =
        ParseOutcome.value (ProtocolDataType.BulkString (str "a\r\nb")) ∧
      from_str (str "!4\r\na\r\nb\r\n") =
        ParseOutcome.value (ProtocolDataType.BulkError (str "a\r\nb")) := by
  have h := C5_length_prefixed_framing (str "a\r\nb") [] (by decide) (by decide)
  obtain ⟨h1, h2⟩ := h
  constructor
  · calc from_str (str "$4\r\na\r\nb\r\n") = from_str ('$' :: (natDigits (str "a\r\nb").length ++
        '\r' :: '\n' :: (str "a\r\nb" ++ '\r' :: '\n' :: []))) := by rfl
    _ = ParseOutcome.value (ProtocolDataType.BulkString (str "a\r\nb")) := h1
  · calc from_str (str "!4\r\na\r\nb\r\n") = from_str ('!' :: (natDigits (str "a\r\nb").length ++
        '\r' :: '\n' :: (str "a\r\nb" ++ '\r' :: '\n' :: []))) := by rfl
    _ = ParseOutcome.value (ProtocolDataType.BulkError (str "a\r\nb")) := h2

/-- C8: every input whose leading char is not one of the ten dispatch
markers fails with the parse error outcome (the code's single,
undifferentiated decode failure — surfaced by `from_str` as its error
result), distinct from both success and crash. -/
theorem C8_unknown_leading_marker (c : Char) (s : List Char) (h : c ∉ markers) :
    from_str (c :: s) = ParseOutcome.error := by
  rw [from_str]
  simp only [List.length_cons]
  rw [data_type_not_marker _ s fun d hd he => h (by rw [he]; exact hd)]

/-- C8 witness: an `x`-headed input is rejected with the error outcome. -/
theorem C8_unknown_leading_marker_witness :
    from_str (str "xhello\r\n") = ParseOutcome.error := by
  have h := C8_unknown_leading_marker 'x' (str "hello\r\n") (by decide)
  exact h

/-- C1 counterexample: the constructible value `BulkString("é")` (whose
simple-string payload restriction is met vacuously) does not round
trip: serialization writes the byte length 2, but the parser's
`take(count)` consumes 2 chars (`é` and the CR), so the trailing CRLF
check fails and parsing the serialization errors instead of
reproducing the value. -/
theorem C1_cex_unicode_payload :
    from_str (serialize (ProtocolDataType.BulkString ['é'])) = ParseOutcome.error := by
  rfl

/-- C1 (amended): for every constructible value whose simple payloads
contain no CRLF, whose bulk payloads are ASCII (and below the `u32`
length-header limit), whose bulk-error payloads are nonempty, whose
integers fit `i64`, whose finite doubles carry `Display`-shaped text,
and whose arrays are below the `usize` count limit — parsing the
serialization succeeds and yields a value equal to the original under
the model's own `PartialEq` (which treats NaN as equal to NaN). -/
theorem C1_roundtrip (v : ProtocolDataType) (h : goodValue v = true) :
    roundtripOk v = true := by
  rw [roundtripOk, from_str_serialize h]
  exact protoEq_refl v

/-- C1 witness: a depth-3 nested array holding a negative integer, an
empty and a nonempty bulk string, a NaN double, a big integer beyond
the 64-bit range, a simple string and the empty array round trips. -/
theorem C1_roundtrip_witness :
    goodValue (ProtocolDataType.Array (ValueList.cons
      (ProtocolDataType.Integer (-9223372036854775808)) (ValueList.cons
      (ProtocolDataType.BulkString (str "Foo")) (ValueList.cons
      (ProtocolDataType.BulkString []) (ValueList.cons
      (ProtocolDataType.Double F64.nan) (ValueList.cons
      (ProtocolDataType.BigNumber 298416298361318972639172639182763918263981267391826379128)
      (ValueList.cons
      (ProtocolDataType.Array (ValueList.cons
        (ProtocolDataType.SimpleString (str "OK")) (ValueList.cons
        (ProtocolDataType.Array ValueList.nil) ValueList.nil)))
      ValueList.nil))))))) = true ∧
    roundtripOk (ProtocolDataType.Array (ValueList.cons
      (ProtocolDataType.Integer (-9223372036854775808)) (ValueList.cons
      (ProtocolDataType.BulkString (str "Foo")) (ValueList.cons
      (ProtocolDataType.BulkString []) (ValueList.cons
      (ProtocolDataType.Double F64.nan) (ValueList.cons
      (ProtocolDataType.BigNumber 298416298361318972639172639182763918263981267391826379128)
      (ValueList.cons
      (ProtocolDataType.Array (ValueList.cons
        (ProtocolDataType.SimpleString (str "OK")) (ValueList.cons
        (ProtocolDataType.Array ValueList.nil) ValueList.nil)))
      ValueList.nil))))))) = true := by
  refine ⟨by decide, C1_roundtrip _ (by decide)⟩

/-- C7: the array parser reads the declared element count and then
parses exactly that many values in sequence, of any variants,
preserving order; a declared count of zero yields the empty array via
the short `*0` form; and the single entry point consumes exactly one
well-formed value, ignoring arbitrary trailing bytes `rest`. -/
theorem C7_array_count_and_entry :
    (∀ rest : List Char, from_str ('*' :: '0' :: '\r' :: '\n' :: rest) =
      ParseOutcome.value (ProtocolDataType.Array ValueList.nil)) ∧
    ∀ (vs : ValueList) (rest : List Char), 1 ≤ vs.length →
      vs.length < 18446744073709551616 → goodItems vs = true →
      from_str ('*' :: (natDigits vs.length ++ '\r' :: '\n' :: (serializeItems vs ++ rest))) =
        ParseOutcome.value (ProtocolDataType.Array vs) := by
  constructor
  · intro rest
    rw [from_str]
    simp only [List.length_cons]
    rw [data_type_star, array_empty_parse]
  · intro vs rest hn hlim hg
    rw [from_str]
    simp only [List.length_cons]
    rw [data_type_star]
    have hdepth : depthItems vs <
        (natDigits vs.length ++ '\r' :: '\n' :: (serializeItems vs ++ rest)).length + 1 := by
      have h1 := depthItems_le_len vs
      simp only [List.length_append, List.length_cons]
      omega
    have helems := many_exact_ser
      ((natDigits vs.length ++ '\r' :: '\n' :: (serializeItems vs ++ rest)).length + 1)
      (fun w hw hdw r =>
        data_type_serialize
          ((natDigits vs.length ++ '\r' :: '\n' :: (serializeItems vs ++ rest)).length + 1)
          w hw hdw r)
      vs.length vs rfl rest hg hdepth
    rw [array_nonempty_parse _ vs.length (serializeItems vs ++ rest) rest vs hn hlim helems]

/-- C7 witness: `*2\r\n:7\r\n#t\r\n` followed by trailing junk parses to
the two-element array `[Integer 7, Boolean true]`, discarding the
junk. -/
theorem C7_array_count_and_entry_witness :
    from_str (str "*2\r\n:7\r\n#t\r\njunk") =
      ParseOutcome.value (ProtocolDataType.Array (ValueList.cons
        (ProtocolDataType.Integer 7)
        (ValueList.cons (ProtocolDataType.Boolean true) ValueList.nil))) := by
  have h := C7_array_count_and_entry.2
    (ValueList.cons (ProtocolDataType.Integer 7)
      (ValueList.cons (ProtocolDataType.Boolean true) ValueList.nil))
    (str "junk") (by decide) (by decide) (by decide)
  exact h

/-- C6: for every combination of SET options, the argument builder
emits the key, the value, then the optional tokens in the fixed order
conditional-mode flag (`XX`/`NX`), `GET`, expiry flag
(`EX`/`PX`/`EXAT`/`PXAT`/`KEEPTTL`) with its numeric argument —
independent of any setter order, since the option record is order-free
— and every emitted token is a `BulkString`. -/
theorem C6_set_argument_order (a : SetArguments) :
    a.to_protocol_arguments =
        [ProtocolDataType.BulkString a.key, ProtocolDataType.BulkString a.value] ++
          conditionalTokens a.options.set_mode ++
          previousValueTokens a.options.get_previous_value ++
          expiryTokens a.options.expiration_time ∧
      ∀ t ∈ a.to_protocol_arguments, isBulkStringTok t = true := by
  obtain ⟨key, value, et, sm, gp⟩ := a
  constructor
  · rcases sm with - | (- | -) <;> cases gp <;>
      rcases et with - | (⟨n⟩ | ⟨n⟩ | ⟨n⟩ | ⟨n⟩ | -) <;>
      simp [SetArguments.to_protocol_arguments, conditionalTokens, previousValueTokens,
        expiryTokens]
  · rcases sm with - | (- | -) <;> cases gp <;>
      rcases et with - | (⟨n⟩ | ⟨n⟩ | ⟨n⟩ | ⟨n⟩ | -) <;>
      simp [SetArguments.to_protocol_arguments, isBulkStringTok]

/-- C6 witness: conditional-mode + previous-value + seconds-expiry
yields exactly `[key, value, XX, GET, EX, 42]`, all bulk strings. -/
theorem C6_set_argument_order_witness :
    SetArguments.to_protocol_arguments
        ⟨str "foo", str "bar",
          ⟨some (ExpirationTime.Seconds 42), some SetMode.SetIfExists, true⟩⟩ =
      [ProtocolDataType.BulkString (str "foo"), ProtocolDataType.BulkString (str "bar"),
        ProtocolDataType.BulkString (str "XX"), ProtocolDataType.BulkString (str "GET"),
        ProtocolDataType.BulkString (str "EX"), ProtocolDataType.BulkString (str "42")] := by
  have h := (C6_set_argument_order
    ⟨str "foo", str "bar",
      ⟨some (ExpirationTime.Seconds 42), some SetMode.SetIfExists, true⟩⟩).1
  exact h

/-- C3 counterexample: with the previous-value flag set, a
`SimpleError` response makes the response shaper crash (the
`try_into().unwrap()` panics on the conversion's `Err`), instead of
yielding `PreviousValue(Some(converted))` as clause (1) of the claim
states for "any other response". -/
theorem C3_cex_error_response_crashes :
    SetResponse.parse ⟨str "k", str "v", ⟨none, none, true⟩⟩
        (ProtocolDataType.SimpleError (str "oops")) = SetParseOutcome.crash := by
  rfl

/-- C3 (amended): the response shaper evaluates, in order: (1) with the
previous-value flag, `Null` yields `PreviousValue(None)`, any other
response whose client-facing conversion succeeds yields
`PreviousValue(Some(converted))`, and a response whose conversion fails
(an error variant, or an array with an unconvertible element) crashes;
(2) else with a conditional mode and a `Null` response, `Aborted`;
(3) else `SimpleString("OK")` yields the completed outcome; (4) any
other combination is a fatal assertion failure (crash), not a
recoverable error. -/
theorem C3_response_shaping (args : SetArguments) (response : ProtocolDataType) :
    (args.options.get_previous_value = true → response = ProtocolDataType.Null →
      SetResponse.parse args response = .res (SetResponse.PreviousValue none)) ∧
    (args.options.get_previous_value = true → response ≠ ProtocolDataType.Null →
      ∀ d, dataTypeTryFrom response = .ok d →
        SetResponse.parse args response = .res (SetResponse.PreviousValue (some d))) ∧
    (args.options.get_previous_value = true → response ≠ ProtocolDataType.Null →
      (dataTypeTryFrom response = .err ∨ dataTypeTryFrom response = .panic) →
        SetResponse.parse args response = .crash) ∧
    (args.options.get_previous_value = false → args.options.set_mode.isSome = true →
      response = ProtocolDataType.Null →
        SetResponse.parse args response = .res SetResponse.Aborted) ∧
    (args.options.get_previous_value = false →
      response = ProtocolDataType.SimpleString (str "OK") →
        SetResponse.parse args response = .res SetResponse.Ok) ∧
    (args.options.get_previous_value = false →
      (args.options.set_mode.isSome = true → response ≠ ProtocolDataType.Null) →
      response ≠ ProtocolDataType.SimpleString (str "OK") →
        SetResponse.parse args response = .crash) := by
  refine ⟨?_, ?_, ?_, ?_, ?_, ?_⟩
  · intro hget hnull
    subst hnull
    simp [SetResponse.parse, hget]
  · intro hget hne d hconv
    cases response <;> first
      | exact absurd rfl hne
      | simp [SetResponse.parse, hget, hconv]
  · intro hget hne hconv
    cases response <;> first
      | exact absurd rfl hne
      | (rcases hconv with hconv | hconv <;> simp [SetResponse.parse, hget, hconv])
  · intro hget hsome hnull
    subst hnull
    simp [SetResponse.parse, hget, hsome]
  · intro hget hok
    subst hok
    simp [SetResponse.parse, hget]
  · intro hget hnotnull hnotok
    cases response with
    | Null =>
      rcases hsome : args.options.set_mode.isSome with - | -
      · simp [SetResponse.parse, hget, hsome]
      · exact absurd rfl (hnotnull hsome)
    | SimpleString s =>
      have hs : s ≠ str "OK" := fun he => hnotok (by rw [he])
      simp [SetResponse.parse, hget, beq_eq_false_iff_ne.mpr hs]
    | _ => simp [SetResponse.parse, hget]

/-- C3 witness: with the previous-value flag, `Null` maps to
`PreviousValue(None)` and `BulkString("baz")` to
`PreviousValue(Some(String "baz"))`; with only the if-absent
conditional mode, `Null` maps to `Aborted`; with no options,
`SimpleString("OK")` maps to the completed outcome. -/
theorem C3_response_shaping_witness :
    SetResponse.parse ⟨str "k", str "v", ⟨none, none, true⟩⟩ ProtocolDataType.Null =
        .res (SetResponse.PreviousValue none) ∧
      SetResponse.parse ⟨str "k", str "v", ⟨none, none, true⟩⟩
          (ProtocolDataType.BulkString (str "baz")) =
        .res (SetResponse.PreviousValue (some (DataType.String (str "baz")))) ∧
      SetResponse.parse ⟨str "k", str "v", ⟨none, some SetMode.SetIfNotExists, false⟩⟩
          ProtocolDataType.Null = .res SetResponse.Aborted ∧
      SetResponse.parse ⟨str "k", str "v", ⟨none, none, false⟩⟩
          (ProtocolDataType.SimpleString (str "OK")) = .res SetResponse.Ok := by
  refine ⟨?_, ?_, ?_, ?_⟩
  · exact (C3_response_shaping ⟨str "k", str "v", ⟨none, none, true⟩⟩
      ProtocolDataType.Null).1 rfl rfl
  · exact (C3_response_shaping ⟨str "k", str "v", ⟨none, none, true⟩⟩
      (ProtocolDataType.BulkString (str "baz"))).2.1 rfl (by simp)
      (DataType.String (str "baz")) rfl
  · exact (C3_response_shaping ⟨str "k", str "v", ⟨none, some SetMode.SetIfNotExists, false⟩⟩
      ProtocolDataType.Null).2.2.2.1 rfl rfl rfl
  · exact (C3_response_shaping ⟨str "k", str "v", ⟨none, none, false⟩⟩
      (ProtocolDataType.SimpleString (str "OK"))).2.2.2.2.1 rfl rfl
